import Mathlib

/-!
cueForth: output channel, stacks, compiler proxies and tagged cells.

A shallow embedding of `src/ostream.h`, `src/eforth.h` and `src/vm/eforth.h`.

Conventions.
* A byte is a `Nat` (values below 256); a memory region is a `List Nat`.
  A store outside the region is undefined behaviour in C++; `List.set`
  leaves the list unchanged there, and the theorems that speak about stored
  bytes assume the stores are inside the region.
* The CUDA built-ins `threadIdx.x` and `blockIdx.x` are explicit arguments.
* Constants and macros of headers that are not part of the sources at hand
  (`cuef_config.h`, `util.h`, `param.h`, ...) are arguments, or definitions
  whose comment starts with "Modelled from the spec".
-/

set_option autoImplicit false

namespace CueForth

/-! ## ostream.h -/

/-- The value type `GT` of `ostream.h`. -/
inductive GT where
  | GT_EMPTY
  | GT_INT
  | GT_HEX
  | GT_FLOAT
  | GT_STR
  deriving DecidableEq, Repr

/-- Enumerator values of `GT`: `GT_EMPTY = 0`, then counting up. -/
def GT.toNat : GT → Nat
  | .GT_EMPTY => 0
  | .GT_INT => 1
  | .GT_HEX => 2
  | .GT_FLOAT => 3
  | .GT_STR => 4

/-- Modelled from the spec: the macro `ALIGN4` of `util.h` (not among the
sources): "4-byte aligned", the size rounded up to the next multiple of 4. -/
def ALIGN4 (sz : Nat) : Nat := (sz + 3) / 4 * 4

/-- `sizeof(obuf_node)`: the bit-fields `id:12`, `gt:4`, `size:16` fill one
32-bit unit, the flexible array member `data[]` adds nothing. -/
def sizeof_obuf_node : Nat := 4

/-- The 32-bit unit holding the bit-fields of `obuf_node`, allocated from the
least significant bit in declaration order: `id` in bits 0..11, `gt` in bits
12..15, `size` in bits 16..31. Each field keeps the low bits of the value
assigned to it. -/
def obuf_node.word (id gt size : Nat) : Nat :=
  id % 2 ^ 12 + 2 ^ 12 * (gt % 2 ^ 4) + 2 ^ 16 * (size % 2 ^ 16)

/-- The four bytes of a 32-bit unit in memory order (little endian). -/
def le32 (w : Nat) : List Nat :=
  [w % 256, w / 256 % 256, w / 65536 % 256, w / 16777216 % 256]

/-- Store the bytes `bs` at `buf[pos], buf[pos+1], ...`. -/
def store (buf : List Nat) (pos : Nat) : List Nat → List Nat
  | [] => buf
  | b :: bs => store (buf.set pos b) (pos + 1) bs

/-- Modelled from the spec: the macro `MEMCPY(d, s, sz)` of `util.h` (not among
the sources), a byte copy of `sz` bytes; `d` is `buf` at offset `pos`. -/
def MEMCPY (buf : List Nat) (pos : Nat) (v : List Nat) (sz : Nat) : List Nat :=
  store buf pos (v.take sz)

/-- Read the 32-bit unit at `buf[pos..pos+3]`. -/
def rd32 (buf : List Nat) (pos : Nat) : Nat :=
  buf.getD pos 0 + 256 * buf.getD (pos + 1) 0 + 65536 * buf.getD (pos + 2) 0
    + 16777216 * buf.getD (pos + 3) 0

/-- Field `id` of the `obuf_node` at `buf[pos]`. -/
def obuf_node.id (buf : List Nat) (pos : Nat) : Nat := rd32 buf pos % 2 ^ 12

/-- Field `gt` of the `obuf_node` at `buf[pos]`. -/
def obuf_node.gt (buf : List Nat) (pos : Nat) : Nat := rd32 buf pos / 2 ^ 12 % 2 ^ 4

/-- Field `size` of the `obuf_node` at `buf[pos]`. -/
def obuf_node.size (buf : List Nat) (pos : Nat) : Nat := rd32 buf pos / 2 ^ 16 % 2 ^ 16

/-- The first `n` bytes of `data[]` of the `obuf_node` at `buf[pos]`. -/
def obuf_node.data (buf : List Nat) (pos n : Nat) : List Nat :=
  (buf.drop (pos + sizeof_obuf_node)).take n

/-- Class `Ostream`: the managed buffer and the formatting settings. -/
structure Ostream where
  _buf : List Nat
  _idx : Nat
  _base : Int
  _width : Int
  _fill : Nat
  _prec : Int
  deriving DecidableEq, Repr

/-- The constructor `Ostream(int sz=CUEF_OBUF_SIZE)` with the default member
initialisers; `mem` is the content of the `sz` bytes that `cudaMallocManaged`
hands out. -/
def Ostream.new (mem : List Nat) : Ostream :=
  { _buf := mem, _idx := 0, _base := 10, _width := 6, _fill := 32, _prec := 6 }

/-- `Ostream::_write(GT gt, U8 *v, int sz)`, run by thread `threadIdx_x` of
block `blockIdx_x`; `CUEF_OBUF_SIZE` is the constant of `cuef_config.h`. -/
def Ostream._write (CUEF_OBUF_SIZE threadIdx_x blockIdx_x : Nat) (o : Ostream)
    (gt : GT) (v : List Nat) (sz : Nat) : Ostream :=
  if threadIdx_x ≠ 0 then o
  else if sizeof_obuf_node + ALIGN4 sz > CUEF_OBUF_SIZE then o
  else
    let n := o._idx
    let size := ALIGN4 sz % 2 ^ 16
    let hdr := le32 (obuf_node.word blockIdx_x gt.toNat (ALIGN4 sz))
    let b1 := store o._buf n hdr
    let b2 := MEMCPY b1 (n + sizeof_obuf_node) v sz
    let idx := o._idx + (sizeof_obuf_node + size)
    { o with _buf := b2.set idx GT.GT_EMPTY.toNat, _idx := idx }

/-- `Ostream::clear()`: `_buf[_idx=0] = (char)GT_EMPTY`. -/
def Ostream.clear (o : Ostream) : Ostream :=
  { o with _buf := o._buf.set 0 GT.GT_EMPTY.toNat, _idx := 0 }

/-- `Ostream::rdbuf()`. -/
def Ostream.rdbuf (o : Ostream) : List Nat := o._buf

/-- `Ostream::tellp()`: `(U32)_idx`. -/
def Ostream.tellp (o : Ostream) : Nat := o._idx % 2 ^ 32

/-- A decoded record of the output channel. -/
structure Record where
  id : Nat
  gt : Nat
  data : List Nat
  deriving DecidableEq, Repr

/-- Modelled from the spec: the host-side consumer of the output channel (its
code is not among the sources). "record header is a fixed-size {producer-id:
12 bits, kind: 4 bits, size: 16 bits} followed by `size` bytes of payload"; the
walk reads a header, skips its `size` bytes and repeats until the empty marker,
read here as the buffer byte `GT_EMPTY` that `_write` and `clear` store at the
cursor; that byte is the low byte of the producer-id, so this reading takes a
record of a producer whose id has a zero low byte for the marker (`walkKind`
is the reading by the kind field). `fuel` bounds the number of records. -/
def walk (buf : List Nat) : Nat → Nat → List Record
  | 0, _ => []
  | fuel + 1, pos =>
    if buf.getD pos 0 = GT.GT_EMPTY.toNat then []
    else
      let size := obuf_node.size buf pos
      { id := obuf_node.id buf pos, gt := obuf_node.gt buf pos,
        data := obuf_node.data buf pos size }
        :: walk buf fuel (pos + (sizeof_obuf_node + size))

/-- Modelled from the spec: the same consumer, when it recognises the end of
the records by the kind field of the header (`GT_EMPTY` is a value of the kind
type `GT`) instead of by the byte at the cursor. -/
def walkKind (buf : List Nat) : Nat → Nat → List Record
  | 0, _ => []
  | fuel + 1, pos =>
    if obuf_node.gt buf pos = GT.GT_EMPTY.toNat then []
    else
      let size := obuf_node.size buf pos
      { id := obuf_node.id buf pos, gt := obuf_node.gt buf pos,
        data := obuf_node.data buf pos size }
        :: walkKind buf fuel (pos + (sizeof_obuf_node + size))

/-- The records a consumer finds in the channel, walking from offset 0. -/
def Ostream.records (o : Ostream) : List Record :=
  walk o.rdbuf o.rdbuf.length 0

/-! ## vector.h, eforth.h, vm/eforth.h: the stacks -/

/-- A value cell `DU`, as the bit pattern it occupies in memory. -/
abbrev DU := Nat

/-- An instruction unit `IU`, an unsigned integer. -/
abbrev IU := Nat

/-- The stack errors of the error-handling design. -/
inductive StackError where
  | underflow
  | overflow
  deriving DecidableEq, Repr

deriving instance DecidableEq for Except

/-- Modelled from the spec: the class `Vector<T, N>` of `vector.h` (not among
the sources), a "fixed-capacity ordered sequence of DU with push/pop at one
end". `v` lists the stored elements, the most recently pushed first; `max` is
the capacity `N`. -/
structure Vector (T : Type) where
  v : List T
  max : Nat
  deriving DecidableEq, Repr

/-- Modelled from the spec: `Vector::push`; "push on full is an overflow
error". -/
def Vector.push {T : Type} (s : Vector T) (t : T) : Except StackError (Vector T) :=
  if s.v.length < s.max then .ok { s with v := t :: s.v } else .error .overflow

/-- Modelled from the spec: `Vector::pop`, which removes and returns the most
recently pushed element; "pop on empty is an underflow error". -/
def Vector.pop {T : Type} (s : Vector T) : Except StackError (T × Vector T) :=
  match s.v with
  | [] => .error .underflow
  | t :: r => .ok (t, { s with v := r })

/-- The VM status of `eforth.h`. -/
inductive vm_status where
  | VM_READY
  | VM_RUN
  | VM_WAIT
  | VM_STOP
  deriving DecidableEq, Repr

/-- Class `ForthVM` of `eforth.h`: the data members that are values (the stream
and memory references, the cached pointers and the input buffer are left out). -/
structure ForthVM where
  status : vm_status
  top : DU
  rs : Vector DU
  ss : Vector DU
  ucase : Bool
  compile : Bool
  radix : Int
  WP : IU
  deriving DecidableEq, Repr

/-- `ForthVM::POP()` of `eforth.h`: `DU n=top; top=ss.pop(); return n;`. -/
def ForthVM.POP (m : ForthVM) : Except StackError (DU × ForthVM) :=
  let n := m.top
  match m.ss.pop with
  | .error e => .error e
  | .ok (t, ss) => .ok (n, { m with top := t, ss := ss })

/-- The ways in which a call of `eforth.h` gives no defined result: an error of
the stack, or control reaching the end of a value-returning function that has
no return statement (undefined behaviour in C++), with the state reached
there. -/
inductive Fault where
  | stack (e : StackError)
  | no_return (reached : ForthVM)
  deriving DecidableEq, Repr

/-- `ForthVM::PUSH(DU v)` of `eforth.h`: `DU PUSH(DU v) { ss.push(top); top = v; }`.
The function is declared to return a `DU` and its body has no return
statement: after `ss.push(top); top = v;` control flows off the end, so no call
has a defined result (the sibling in `vm/eforth.h` ends in `return TOS = v;`). -/
def ForthVM.PUSH (m : ForthVM) (v : DU) : Except Fault (DU × ForthVM) :=
  match m.ss.push m.top with
  | .error e => .error (.stack e)
  | .ok ss => .error (.no_return { m with ss := ss, top := v })

namespace vm

/-- Class `ForthVM` of `vm/eforth.h`, with the parameter stack `SS` of its
base class `VM` (the cached dictionary pointer and the alias `ptos` of `TOS`
are left out). -/
structure ForthVM where
  WP : IU
  IP : IU
  TOS : DU
  compile : Bool
  base : IU
  SS : Vector DU
  deriving DecidableEq, Repr

/-- `ForthVM::POP()` of `vm/eforth.h`: `DU n=TOS; TOS=SS.pop(); return n;`. -/
def ForthVM.POP (m : ForthVM) : Except StackError (DU × ForthVM) :=
  let n := m.TOS
  match m.SS.pop with
  | .error e => .error e
  | .ok (t, ss) => .ok (n, { m with TOS := t, SS := ss })

/-- `ForthVM::PUSH(DU v)` of `vm/eforth.h`: `SS.push(TOS); return TOS = v;`. -/
def ForthVM.PUSH (m : ForthVM) (v : DU) : Except StackError (DU × ForthVM) :=
  match m.SS.push m.TOS with
  | .error e => .error e
  | .ok ss => .ok (v, { m with SS := ss, TOS := v })

end vm

/-! ## vm/eforth.h: the dictionary compiler proxies -/

/-- Constants of headers that are not among the sources: `sizeof(IU)` and
`sizeof(DU)` in bytes, the alignment unit of the macro `ALIGN`, the opcodes
`LIT` and `MAX_OP` of `prim_op`, and the widths of the offset and opcode
bit-fields of `Param`. -/
structure Platform where
  sizeof_IU : Nat
  sizeof_DU : Nat
  align : Nat
  LIT : Nat
  MAX_OP : Nat
  ioff_bits : Nat
  op_bits : Nat
  deriving DecidableEq, Repr

/-- Number of bits of an `IU` that `Param` uses: offset, opcode, the
user-defined flag and the exit flag. -/
def Platform.param_bits (P : Platform) : Nat := P.ioff_bits + P.op_bits + 2

/-- Modelled from the spec: the macro `ALIGN` of `util.h` (not among the
sources), "padding to the platform's alignment unit": the size rounded up to
the next multiple of the unit. -/
def ALIGN (P : Platform) (sz : Nat) : Nat := (sz + P.align - 1) / P.align * P.align

/-- Modelled from the spec: the macro `STRLENB` of `util.h` (not among the
sources), the number of bytes before the terminator of the string that starts
at the pointer; `s` lists the memory from the pointer on. -/
def STRLENB (s : List Nat) : Nat := (s.takeWhile (fun c => c != 0)).length

/-- The `k` bytes of the object representation of the unsigned integer `n`, in
memory order (little endian): what `(U8*)&n` points to. -/
def leBytes : Nat → Nat → List Nat
  | 0, _ => []
  | k + 1, n => n % 256 :: leBytes k (n / 256)

/-- The unsigned integer whose object representation is `bs`. -/
def ofLeBytes : List Nat → Nat
  | [] => 0
  | b :: bs => b + 256 * ofLeBytes bs

/-- Modelled from the spec: the arena of class `MMU` (`mmu.h`, not among the
sources), "a single growable byte region, written only at its current
high-water mark (append-only)". `pmem` lists the bytes below the mark; `pad`
lists the bytes last stored at the mark without advancing it. -/
structure MMU where
  pmem : List Nat
  pad : List Nat
  deriving DecidableEq, Repr

/-- Modelled from the spec: `MMU::add(U8 *v, int sz, bool adv)`, the
`append_bytes` operation: the `sz` bytes at `v` are stored at the high-water
mark, which advances past them when `adv` is set. -/
def MMU.add (m : MMU) (v : List Nat) (sz : Nat) (adv : Bool) : MMU :=
  if adv then { pmem := m.pmem ++ v.take sz, pad := [] }
  else { m with pad := v.take sz }

/-- Modelled from the spec: the struct `Param` of `param.h` (not among the
sources), the fields of a packed instruction unit as the constructor calls
`Param p(op, ip, u, exit)` name them. -/
structure Param where
  op : Nat
  ioff : Nat
  udf : Bool
  exit : Bool
  deriving DecidableEq, Repr

/-- Modelled from the spec: the member `pack` of `Param`, "an explicit
encode/decode pair operating on an unsigned integer, with documented bit
ranges": the offset in the low `ioff_bits` bits, then the opcode in `op_bits`
bits, then the user-defined flag, then the exit flag. -/
def Param.pack (P : Platform) (p : Param) : IU :=
  p.ioff % 2 ^ P.ioff_bits
    + 2 ^ P.ioff_bits * (p.op % 2 ^ P.op_bits
      + 2 ^ P.op_bits * (p.udf.toNat + 2 * p.exit.toNat))

/-- Modelled from the spec: the decoding of a packed instruction unit into the
fields of `Param`. -/
def Param.unpack (P : Platform) (x : IU) : Param :=
  { ioff := x % 2 ^ P.ioff_bits
    op := x / 2 ^ P.ioff_bits % 2 ^ P.op_bits
    udf := x / 2 ^ (P.ioff_bits + P.op_bits) % 2 == 1
    exit := x / 2 ^ (P.ioff_bits + P.op_bits + 1) % 2 == 1 }

/-- Modelled from the spec: a dictionary entry `Code` (not among the sources),
a Word "{name, immediate, code-field: offset into Arena}", with the
user-defined flag that `add_w` reads. -/
structure Code where
  name : List Nat
  pfa : IU
  udf : Bool
  immd : Bool
  deriving DecidableEq, Repr

namespace vm

/-- `ForthVM::add_iu(IU i)`: `mmu->add((U8*)&i, sizeof(IU))`. -/
def ForthVM.add_iu (P : Platform) (mmu : MMU) (i : IU) : MMU :=
  mmu.add (leBytes P.sizeof_IU i) P.sizeof_IU true

/-- `ForthVM::add_du(DU d)`: `mmu->add((U8*)&d, sizeof(DU))`. -/
def ForthVM.add_du (P : Platform) (mmu : MMU) (d : DU) : MMU :=
  mmu.add (leBytes P.sizeof_DU d) P.sizeof_DU true

/-- `ForthVM::add_w(Param p)`: `add_iu(p.pack)`. -/
def ForthVM.add_w (P : Platform) (mmu : MMU) (p : Param) : MMU :=
  ForthVM.add_iu P mmu (p.pack P)

/-- `ForthVM::add_w(IU w)`: `Param p(MAX_OP, dict[w].pfa, c.udf); add_w(p)`.
An index outside the dictionary gives no result. -/
def ForthVM.add_w_IU (P : Platform) (dict : List Code) (mmu : MMU) (w : IU) : Option MMU :=
  match dict[w]? with
  | none => none
  | some c => some (ForthVM.add_w P mmu { op := P.MAX_OP, ioff := c.pfa, udf := c.udf, exit := false })

/-- `ForthVM::add_str(const char *s, bool adv)`: the returned size and the
arena. -/
def ForthVM.add_str (P : Platform) (mmu : MMU) (s : List Nat) (adv : Bool) : Nat × MMU :=
  let sz := STRLENB s + 1
  let sz := ALIGN P sz
  (sz, mmu.add s sz adv)

/-- `ForthVM::add_p(prim_op op, IU ip, bool u, bool exit)`. -/
def ForthVM.add_p (P : Platform) (mmu : MMU) (op : Nat) (ip : IU) (u exit : Bool) : MMU :=
  ForthVM.add_w P mmu { op := op, ioff := ip, udf := u, exit := exit }

/-- `ForthVM::add_lit(DU v, bool exit)`. -/
def ForthVM.add_lit (P : Platform) (mmu : MMU) (v : DU) (exit : Bool) : MMU :=
  ForthVM.add_du P (ForthVM.add_p P mmu P.LIT 0 false exit) v

end vm

/-- The instruction unit stored in the arena at offset `off`: the `sizeof(IU)`
bytes there, read as an unsigned integer. -/
def MMU.fetch_IU (P : Platform) (m : MMU) (off : Nat) : IU :=
  ofLeBytes ((m.pmem.drop off).take P.sizeof_IU)

/-- The value cell stored in the arena at offset `off`. -/
def MMU.fetch_DU (P : Platform) (m : MMU) (off : Nat) : DU :=
  ofLeBytes ((m.pmem.drop off).take P.sizeof_DU)

/-! ## t4base.h, vm/tenvm.h: tagged cells -/

/-- The error of decoding a cell that is not a handle. -/
inductive HandleError where
  | InvalidHandleDecode
  deriving DecidableEq, Repr

/-- Modelled from the spec: the tagging scheme of `t4base.h` (not among the
sources), which "must reserve a disjoint bit-pattern subspace for handles": a
cell is a handle when its bits above the low `bits` bits equal `tag`, and the
low `bits` bits locate the object in the object heap. -/
structure Tagging where
  tag : Nat
  bits : Nat
  deriving DecidableEq, Repr

/-- Modelled from the spec: the macro `IS_OBJ`, the test `is_handle`. -/
def IS_OBJ (T : Tagging) (d : DU) : Bool := d / 2 ^ T.bits == T.tag

/-- Modelled from the spec: `T4Base::obj2du`, `encode_handle`; the object is
given by its location `o` in the object heap. -/
def obj2du (T : Tagging) (o : Nat) : DU := T.tag * 2 ^ T.bits + o % 2 ^ T.bits

/-- Modelled from the spec: `MMU::du2obj`, `decode_handle`; "decoding an
invalid/corrupt handle pattern is treated as a fatal invariant violation,
never silently coerced to a number". -/
def du2obj (T : Tagging) (d : DU) : Except HandleError Nat :=
  if IS_OBJ T d then .ok (d % 2 ^ T.bits) else .error .InvalidHandleDecode

namespace vm

/-- `ForthVM::PUSH(T4Base &t)`: `ss.push(TOS); return TOS = T4Base::obj2du(t);`. -/
def ForthVM.PUSH_obj (T : Tagging) (m : ForthVM) (t : Nat) : Except StackError (DU × ForthVM) :=
  match m.SS.push m.TOS with
  | .error e => .error e
  | .ok ss => .ok (obj2du T t, { m with SS := ss, TOS := obj2du T t })

/-- The macro `TTOS` of `vm/tenvm.h`: `mmu.du2obj(tos)`. -/
def ForthVM.TTOS (T : Tagging) (m : ForthVM) : Except HandleError Nat := du2obj T m.TOS

end vm

/-! ## ostream.h: the insertion operators -/

/-- The launch position of the calling thread and the constants of
`cuef_config.h` and `cuef_types.h` (not among the sources) that the insertion
operators use: the buffer capacity, `sizeof(GI)` and `sizeof(GF)`. -/
structure Env where
  CUEF_OBUF_SIZE : Nat
  threadIdx_x : Nat
  blockIdx_x : Nat
  sizeof_GI : Nat
  sizeof_GF : Nat
  deriving DecidableEq, Repr

/-- The integer type `GI`. -/
abbrev GI := Int

/-- The floating-point type `GF`, as the bit pattern of the value. -/
abbrev GF := Nat

/-- The `k` bytes of the object representation of the integer `i` (two's
complement, little endian): what `(U8*)&i` points to. -/
def GI.bytes (k : Nat) (i : GI) : List Nat := leBytes k (i % (256 : Int) ^ k).toNat

/-- `operator<<(_setbase b)`: `_base = b.base`. -/
def Ostream.shl_setbase (o : Ostream) (b : Int) : Ostream := { o with _base := b }

/-- `operator<<(_setw w)`: `_width = w.width`. -/
def Ostream.shl_setw (o : Ostream) (w : Int) : Ostream := { o with _width := w }

/-- `operator<<(_setfill f)`: `_fill = f.fill`. -/
def Ostream.shl_setfill (o : Ostream) (f : Nat) : Ostream := { o with _fill := f }

/-- `operator<<(_setprec p)`: `_prec = p.prec`. -/
def Ostream.shl_setprec (o : Ostream) (p : Int) : Ostream := { o with _prec := p }

/-- `operator<<(U8 c)`: `U8 buf[2] = { c, '\0' }; _write(GT_STR, buf, 2);`. -/
def Ostream.shl_U8 (E : Env) (o : Ostream) (c : Nat) : Ostream :=
  Ostream._write E.CUEF_OBUF_SIZE E.threadIdx_x E.blockIdx_x o .GT_STR [c, 0] 2

/-- `operator<<(GI i)`:
`_write(_base==10 ? GT_INT : GT_HEX, (U8*)&i, sizeof(GI));`. -/
def Ostream.shl_GI (E : Env) (o : Ostream) (i : GI) : Ostream :=
  Ostream._write E.CUEF_OBUF_SIZE E.threadIdx_x E.blockIdx_x o
    (if o._base = 10 then .GT_INT else .GT_HEX) (GI.bytes E.sizeof_GI i) E.sizeof_GI

/-- `operator<<(GF f)`: `_write(GT_FLOAT, (U8*)&f, sizeof(GF));`. -/
def Ostream.shl_GF (E : Env) (o : Ostream) (f : GF) : Ostream :=
  Ostream._write E.CUEF_OBUF_SIZE E.threadIdx_x E.blockIdx_x o .GT_FLOAT
    (leBytes E.sizeof_GF f) E.sizeof_GF

/-- `operator<<(const char *s)`: `int i = STRLENB(s)+1; _write(GT_STR, (U8*)s, i);`;
`s` lists the memory from the pointer on. -/
def Ostream.shl_str (E : Env) (o : Ostream) (s : List Nat) : Ostream :=
  let i := STRLENB s + 1
  Ostream._write E.CUEF_OBUF_SIZE E.threadIdx_x E.blockIdx_x o .GT_STR s i

/-- A call of `_write` with its thread, block and arguments. -/
structure WriteReq where
  threadIdx_x : Nat
  blockIdx_x : Nat
  gt : GT
  v : List Nat
  sz : Nat
  deriving DecidableEq, Repr

/-- The calls `ws` of `_write`, performed one after another. -/
def Ostream.writes (CUEF_OBUF_SIZE : Nat) (o : Ostream) (ws : List WriteReq) : Ostream :=
  ws.foldl (fun s w => Ostream._write CUEF_OBUF_SIZE w.threadIdx_x w.blockIdx_x s w.gt w.v w.sz) o

/-- Modelled from the spec: the offset at which the consumer `walk` stops. -/
def walkStop (buf : List Nat) : Nat → Nat → Nat
  | 0, pos => pos
  | fuel + 1, pos =>
    if buf.getD pos 0 = GT.GT_EMPTY.toNat then pos
    else walkStop buf fuel (pos + (sizeof_obuf_node + obuf_node.size buf pos))

/-- Modelled from the spec: the offset at which the consumer `walkKind` stops. -/
def walkKindStop (buf : List Nat) : Nat → Nat → Nat
  | 0, pos => pos
  | fuel + 1, pos =>
    if obuf_node.gt buf pos = GT.GT_EMPTY.toNat then pos
    else walkKindStop buf fuel (pos + (sizeof_obuf_node + obuf_node.size buf pos))

/-! ## sys.h: `System::dot` -/

/-- The operations `io_op` that `System::dot` distinguishes; `other` stands for
the enumerators that reach the `default` branch, with their value. -/
inductive io_op where
  | RDX
  | CR
  | DOT
  | UDOT
  | EMIT
  | SPCS
  | other (n : Nat)
  deriving DecidableEq, Repr

/-- The macro `ENDL` of `eforth.h`: the string `"\n"`, with its terminator. -/
def ENDL : List Nat := [10, 0]

/-- The string literal `" "`, with its terminator. -/
def SPACE : List Nat := [32, 0]

/-- `System::spaces(int n)`: `for (int i = 0; i < n; i++) *_ostr << " ";`. -/
def System.spaces (E : Env) (o : Ostream) (n : Int) : Ostream :=
  (List.range n.toNat).foldl (fun s _ => Ostream.shl_str E s SPACE) o

/-- `System::dot(io_op op, DU v)`, as a function of the output stream `*_ostr`.
`DU` is the real-number cell, so `<< v` is `operator<<(GF)`; `INT` stands for
the conversion `INT(v)` of a header that is not among the sources.
`EMIT`: `char b = (char)INT(v); *_ostr << b;` - a `char` argument is promoted
to `int`, so the call selects `operator<<(GI)` with the value of the (signed,
8-bit) character. `UDOT`: no operator of `ostream.h` takes a `U32` and the
conversions to `U8`, `GI` and `GF` rank alike, so this header does not
determine the effect of `<< static_cast<U32>(v)`; it is the argument
`shl_U32`. The enumerator of the `default` branch is promoted to `int` and
goes to `operator<<(GI)`. -/
def System.dot (E : Env) (INT : DU → Int) (shl_U32 : Ostream → DU → Ostream) (o : Ostream)
    (op : io_op) (v : DU) : Ostream :=
  match op with
  | .RDX => Ostream.shl_setbase o (INT v)
  | .CR => Ostream.shl_str E o ENDL
  | .DOT => Ostream.shl_str E (Ostream.shl_GF E o v) SPACE
  | .UDOT => Ostream.shl_str E (shl_U32 o v) SPACE
  | .EMIT => Ostream.shl_GI E o ((INT v + 128) % 256 - 128)
  | .SPCS => System.spaces E o (INT v)
  | .other n =>
    Ostream.shl_str E (Ostream.shl_GI E (Ostream.shl_str E o
      [117, 110, 107, 110, 111, 119, 110, 32, 105, 111, 95, 111, 112, 61, 0]) n) ENDL

/-! ## mmu.h, vm/eforth.h: the dictionary search -/

/-- Modelled from the spec: the upper-case form of an ASCII letter, for
"comparing names case-insensitively if so configured". -/
def toUpper (c : Nat) : Nat := if 97 ≤ c ∧ c ≤ 122 then c - 32 else c

/-- Modelled from the spec: the comparison of two names, case-insensitive when
`ucase` is set. -/
def name_eq (ucase : Bool) (a b : List Nat) : Bool :=
  if ucase then a.map toUpper == b.map toUpper else a == b

/-- Modelled from the spec: the scan of `MMU::find` over the entries
`n-1, ..., 0`, which "returns the first match"; -1 stands for not-found. -/
def MMU.scan (ucase : Bool) (dict : List Code) (name : List Nat) : Nat → Int
  | 0 => -1
  | i + 1 =>
    match dict[i]? with
    | some c => if name_eq ucase c.name name then (i : Int) else MMU.scan ucase dict name i
    | none => MMU.scan ucase dict name i

/-- Modelled from the spec: `MMU::find(name, compile)` of `mmu.h` (not among
the sources): it "scans from the most recently defined word backward"; while
compiling, the entry under construction is not visible yet ("end definition
... finalizes the entry (making it visible to `find`)"). -/
def MMU.find (ucase : Bool) (dict : List Code) (name : List Nat) (compile : Bool) : Int :=
  MMU.scan ucase dict name (if compile then dict.length - 1 else dict.length)

namespace vm

/-- `ForthVM::FIND(char *name)`: `mmu->find(name, compile)`. -/
def ForthVM.FIND (ucase : Bool) (m : ForthVM) (dict : List Code) (name : List Nat) : Int :=
  MMU.find ucase dict name m.compile

/-- Modelled from the spec: `ForthVM::_def_word` (declared in `vm/eforth.h`,
defined elsewhere), the start of a definition: it "allocates a new dictionary
entry with a pending name" whose code field is the high-water mark of the
arena, and "switches compile mode on". -/
def ForthVM._def_word (m : ForthVM) (dict : List Code) (mmu : MMU) (name : List Nat) :
    ForthVM × List Code :=
  ({ m with compile := true },
   dict ++ [{ name := name, pfa := mmu.pmem.length, udf := true, immd := false }])

/-- Modelled from the spec: the "end definition" word, which "finalizes the
entry (making it visible to `find`) and switches compile mode off". -/
def ForthVM.end_def (m : ForthVM) : ForthVM := { m with compile := false }

end vm

/-! ## Stores into a buffer -/

theorem length_store (bs : List Nat) : ∀ (buf : List Nat) (pos : Nat),
    (store buf pos bs).length = buf.length := by
  induction bs with
  | nil => intro buf pos; rfl
  | cons b bs ih => intro buf pos; simp [store, ih]

theorem getElem?_store (bs : List Nat) : ∀ (buf : List Nat) (pos i : Nat),
    (store buf pos bs)[i]? =
      if pos ≤ i ∧ i < pos + bs.length ∧ i < buf.length then bs[i - pos]? else buf[i]? := by
  induction bs with
  | nil =>
    intro buf pos i
    have h : ¬ (pos ≤ i ∧ i < pos + ([] : List Nat).length ∧ i < buf.length) := by
      simp only [List.length_nil]; omega
    rw [if_neg h]; rfl
  | cons b bs ih =>
    intro buf pos i
    simp only [store, ih, List.length_set, List.length_cons, List.getElem?_set]
    by_cases h1 : pos = i
    · subst h1
      have h3 : ¬ (pos + 1 ≤ pos ∧ pos < pos + 1 + bs.length ∧ pos < buf.length) := by omega
      rw [if_neg h3]
      by_cases h2 : pos < buf.length
      · have h4 : pos ≤ pos ∧ pos < pos + (bs.length + 1) ∧ pos < buf.length := by omega
        rw [if_pos h4]
        simp [h2]
      · have h4 : ¬ (pos ≤ pos ∧ pos < pos + (bs.length + 1) ∧ pos < buf.length) := by omega
        rw [if_neg h4]
        simp only [if_true, if_neg h2]
        exact (List.getElem?_eq_none (by omega)).symm
    · by_cases h2 : pos + 1 ≤ i ∧ i < pos + 1 + bs.length ∧ i < buf.length
      · have h3 : pos ≤ i ∧ i < pos + (bs.length + 1) ∧ i < buf.length := by omega
        have h4 : i - pos = (i - (pos + 1)) + 1 := by omega
        rw [if_pos h2, if_pos h3, h4]
        simp
      · have h3 : ¬ (pos ≤ i ∧ i < pos + (bs.length + 1) ∧ i < buf.length) := by omega
        rw [if_neg h2, if_neg h3]
        simp [h1]

/-- The buffer that an accepted `_write` leaves, byte by byte, when the record
and the marker after it lie inside the buffer. -/
theorem getElem?_write_buf (buf hdr pay : List Nat) (n m i : Nat)
    (hh : hdr.length = 4) (hm : n + 4 + pay.length ≤ m) (hb : m < buf.length) :
    ((store (store buf n hdr) (n + 4) pay).set m 0)[i]? =
      if i = m then some 0
      else if n ≤ i ∧ i < n + 4 then hdr[i - n]?
      else if n + 4 ≤ i ∧ i < n + 4 + pay.length then pay[i - (n + 4)]?
      else buf[i]? := by
  simp only [List.getElem?_set, getElem?_store, length_store, hh]
  by_cases h1 : m = i
  · subst h1; simp [hb]
  · have h1' : ¬ i = m := fun h => h1 h.symm
    rw [if_neg h1, if_neg h1']
    by_cases h2 : n ≤ i ∧ i < n + 4
    · have h3 : ¬ (n + 4 ≤ i ∧ i < n + 4 + pay.length ∧ i < buf.length) := by omega
      have h4 : n ≤ i ∧ i < n + 4 ∧ i < buf.length := by omega
      rw [if_neg h3, if_pos h4, if_pos h2]
    · have h4 : ¬ (n ≤ i ∧ i < n + 4 ∧ i < buf.length) := by omega
      rw [if_neg h2]
      by_cases h3 : n + 4 ≤ i ∧ i < n + 4 + pay.length
      · have h5 : n + 4 ≤ i ∧ i < n + 4 + pay.length ∧ i < buf.length := by omega
        rw [if_pos h5, if_pos h3]
      · have h5 : ¬ (n + 4 ≤ i ∧ i < n + 4 + pay.length ∧ i < buf.length) := by omega
        rw [if_neg h5, if_neg h3, if_neg h4]

theorem ALIGN4_spec (sz : Nat) : sz ≤ ALIGN4 sz ∧ ALIGN4 sz < sz + 4 ∧ 4 ∣ ALIGN4 sz := by
  unfold ALIGN4
  refine ⟨by omega, by omega, Dvd.intro_left _ rfl⟩

theorem GT_toNat_lt (gt : GT) : gt.toNat < 16 := by
  cases gt <;> decide

theorem rd32_le32 (buf : List Nat) (n w : Nat) (hw : w < 2 ^ 32)
    (h0 : buf[n]? = (le32 w)[0]?) (h1 : buf[n + 1]? = (le32 w)[1]?)
    (h2 : buf[n + 2]? = (le32 w)[2]?) (h3 : buf[n + 3]? = (le32 w)[3]?) :
    rd32 buf n = w := by
  simp only [le32, List.getElem?_cons_zero, List.getElem?_cons_succ] at h0 h1 h2 h3
  simp only [rd32, List.getD_eq_getElem?_getD, h0, h1, h2, h3, Option.getD_some]
  norm_num at hw
  omega

theorem word_lt (id gt size : Nat) : obuf_node.word id gt size < 2 ^ 32 := by
  unfold obuf_node.word
  norm_num
  omega

/-- What an accepted `_write` of the leader thread computes. -/
theorem write_leader_eq (cap b : Nat) (o : Ostream) (gt : GT) (v : List Nat) (sz : Nat)
    (hacc : sizeof_obuf_node + ALIGN4 sz ≤ cap) :
    Ostream._write cap 0 b o gt v sz =
      { o with
        _buf := (store (store o._buf o._idx (le32 (obuf_node.word b gt.toNat (ALIGN4 sz))))
                  (o._idx + 4) (v.take sz)).set (o._idx + (4 + ALIGN4 sz % 2 ^ 16)) 0
        _idx := o._idx + (4 + ALIGN4 sz % 2 ^ 16) } := by
  have h : ¬ (sizeof_obuf_node + ALIGN4 sz > cap) := by omega
  simp only [Ostream._write, ne_eq, not_true_eq_false, if_false, if_neg h]
  rfl

/-- The header unit read back after an accepted `_write` that lies inside the
buffer. -/
theorem rd32_write (cap b : Nat) (o : Ostream) (gt : GT) (v : List Nat) (sz : Nat)
    (hacc : sizeof_obuf_node + ALIGN4 sz ≤ cap)
    (hfit : o._idx + sizeof_obuf_node + ALIGN4 sz < o._buf.length)
    (h16 : ALIGN4 sz < 2 ^ 16) :
    rd32 (Ostream._write cap 0 b o gt v sz)._buf o._idx
      = obuf_node.word b gt.toNat (ALIGN4 sz) := by
  rw [write_leader_eq cap b o gt v sz hacc]
  have hA := ALIGN4_spec sz
  have hmod : ALIGN4 sz % 2 ^ 16 = ALIGN4 sz := Nat.mod_eq_of_lt h16
  have hlen : (v.take sz).length ≤ sz := by simp [List.length_take]
  simp only [sizeof_obuf_node] at hfit
  have key : ∀ k, k < 4 →
      ((store (store o._buf o._idx (le32 (obuf_node.word b gt.toNat (ALIGN4 sz))))
          (o._idx + 4) (v.take sz)).set (o._idx + (4 + ALIGN4 sz % 2 ^ 16)) 0)[o._idx + k]?
        = (le32 (obuf_node.word b gt.toNat (ALIGN4 sz)))[k]? := by
    intro k hk
    rw [hmod, getElem?_write_buf o._buf (le32 (obuf_node.word b gt.toNat (ALIGN4 sz)))
      (v.take sz) o._idx (o._idx + (4 + ALIGN4 sz)) (o._idx + k) rfl (by omega) (by omega)]
    have e1 : ¬ (o._idx + k = o._idx + (4 + ALIGN4 sz)) := by omega
    have e2 : o._idx ≤ o._idx + k ∧ o._idx + k < o._idx + 4 := by omega
    rw [if_neg e1, if_pos e2]
    congr 1
    omega
  exact rd32_le32 _ _ _ (word_lt _ _ _) (key 0 (by omega)) (key 1 (by omega))
    (key 2 (by omega)) (key 3 (by omega))

/-- A record that is larger than the whole buffer is dropped. -/
theorem write_too_big_dropped (cap tid b : Nat) (o : Ostream) (gt : GT) (v : List Nat)
    (sz : Nat) (h : cap < sizeof_obuf_node + ALIGN4 sz) :
    Ostream._write cap tid b o gt v sz = o := by
  unfold Ostream._write
  by_cases ht : tid ≠ 0
  · rw [if_pos ht]
  · rw [if_neg ht, if_pos h]

/-- No call of `_write` changes a buffer byte below the cursor. -/
theorem write_keeps_earlier_bytes (cap tid b : Nat) (o : Ostream) (gt : GT) (v : List Nat)
    (sz i : Nat) (hi : i < o._idx) :
    (Ostream._write cap tid b o gt v sz)._buf[i]? = o._buf[i]? := by
  by_cases ht : tid ≠ 0
  · simp only [Ostream._write, if_pos ht]
  · have ht0 : tid = 0 := by omega
    subst ht0
    by_cases hg : cap < sizeof_obuf_node + ALIGN4 sz
    · rw [write_too_big_dropped cap 0 b o gt v sz hg]
    · rw [write_leader_eq cap b o gt v sz (by omega)]
      simp only [List.getElem?_set, getElem?_store, length_store]
      have e1 : ¬ (o._idx + (4 + ALIGN4 sz % 2 ^ 16) = i) := by omega
      have e2 : ¬ (o._idx + 4 ≤ i ∧ i < o._idx + 4 + (v.take sz).length ∧ i < o._buf.length) := by
        omega
      have e3 : ¬ (o._idx ≤ i ∧
          i < o._idx + (le32 (obuf_node.word b gt.toNat (ALIGN4 sz))).length ∧
          i < o._buf.length) := by omega
      rw [if_neg e1, if_neg e2, if_neg e3]

/-! ## The output channel -/

/-- C1, as the code behaves: the guard of `_write` compares the size of the
record alone with `CUEF_OBUF_SIZE`. A record that is not larger than the whole
buffer but would go past the capacity when placed at the cursor is not
dropped: the leader thread stores it and moves the cursor past the capacity. -/
theorem write_past_capacity_not_dropped (cap b : Nat) (o : Ostream) (gt : GT)
    (v : List Nat) (sz : Nat)
    (hrec : sizeof_obuf_node + ALIGN4 sz ≤ cap)
    (h16 : ALIGN4 sz < 2 ^ 16)
    (hpast : cap < o._idx + sizeof_obuf_node + ALIGN4 sz) :
    (Ostream._write cap 0 b o gt v sz)._idx = o._idx + sizeof_obuf_node + ALIGN4 sz ∧
    cap < (Ostream._write cap 0 b o gt v sz)._idx ∧
    Ostream._write cap 0 b o gt v sz ≠ o := by
  have hidx : (Ostream._write cap 0 b o gt v sz)._idx
      = o._idx + sizeof_obuf_node + ALIGN4 sz := by
    rw [write_leader_eq cap b o gt v sz hrec, Nat.mod_eq_of_lt h16]
    simp only [sizeof_obuf_node]
    omega
  refine ⟨hidx, by omega, ?_⟩
  intro h
  rw [h] at hidx
  simp only [sizeof_obuf_node] at hidx
  omega

/-- Witness of C1: a buffer of 16 bytes, cleared, receives a record of 8
payload bytes (cursor 12); the next record of 1 payload byte needs the bytes
12..19 and is stored all the same, the cursor becomes 20. -/
theorem write_past_capacity_not_dropped_witness :
    (Ostream._write 16 0 1 (Ostream.new (List.replicate 16 0)).clear
        .GT_STR [97, 98, 99, 100, 101, 102, 103, 0] 8)._idx = 12 ∧
    (Ostream._write 16 0 1
        (Ostream._write 16 0 1 (Ostream.new (List.replicate 16 0)).clear
          .GT_STR [97, 98, 99, 100, 101, 102, 103, 0] 8)
        .GT_STR [65] 1)._idx = 20 :=
  ⟨by decide,
   (write_past_capacity_not_dropped 16 1
      (Ostream._write 16 0 1 (Ostream.new (List.replicate 16 0)).clear
        .GT_STR [97, 98, 99, 100, 101, 102, 103, 0] 8)
      .GT_STR [65] 1 (by decide) (by decide) (by decide)).1⟩

/-- C2: an accepted write of the leader thread of block `b`, whose record and
end marker lie inside the buffer and whose padded size fits the 16-bit size
field, stores at the old cursor a header with producer-id `b` (its low 12
bits), kind `gt` and size `ALIGN4 sz`, the least multiple of 4 that is at
least `sz`; the first `sz` payload bytes are the input bytes; the cursor
advances by 4 plus that size and stays a multiple of 4. -/
theorem write_accepted_record (cap b : Nat) (o : Ostream) (gt : GT)
    (v : List Nat) (sz : Nat)
    (hacc : sizeof_obuf_node + ALIGN4 sz ≤ cap)
    (hfit : o._idx + sizeof_obuf_node + ALIGN4 sz < o._buf.length)
    (h16 : ALIGN4 sz < 2 ^ 16)
    (hv : sz ≤ v.length) :
    obuf_node.id (Ostream._write cap 0 b o gt v sz)._buf o._idx = b % 2 ^ 12 ∧
    (b < 2 ^ 12 → obuf_node.id (Ostream._write cap 0 b o gt v sz)._buf o._idx = b) ∧
    obuf_node.gt (Ostream._write cap 0 b o gt v sz)._buf o._idx = gt.toNat ∧
    obuf_node.size (Ostream._write cap 0 b o gt v sz)._buf o._idx = ALIGN4 sz ∧
    (sz ≤ ALIGN4 sz ∧ ALIGN4 sz < sz + 4 ∧ 4 ∣ ALIGN4 sz) ∧
    obuf_node.data (Ostream._write cap 0 b o gt v sz)._buf o._idx sz = v.take sz ∧
    (Ostream._write cap 0 b o gt v sz)._idx = o._idx + (sizeof_obuf_node + ALIGN4 sz) ∧
    (4 ∣ o._idx → 4 ∣ (Ostream._write cap 0 b o gt v sz)._idx) := by
  have hA := ALIGN4_spec sz
  have hg := GT_toNat_lt gt
  have hrd := rd32_write cap b o gt v sz hacc hfit h16
  have hmod : ALIGN4 sz % 2 ^ 16 = ALIGN4 sz := Nat.mod_eq_of_lt h16
  have hidx : (Ostream._write cap 0 b o gt v sz)._idx
      = o._idx + (sizeof_obuf_node + ALIGN4 sz) := by
    rw [write_leader_eq cap b o gt v sz hacc, hmod]
    rfl
  have hid : obuf_node.id (Ostream._write cap 0 b o gt v sz)._buf o._idx = b % 2 ^ 12 := by
    simp only [obuf_node.id, hrd, obuf_node.word]
    norm_num
    omega
  refine ⟨hid, ?_, ?_, ?_, hA, ?_, hidx, ?_⟩
  · intro hb
    rw [hid, Nat.mod_eq_of_lt hb]
  · simp only [obuf_node.gt, hrd, obuf_node.word]
    norm_num
    omega
  · simp only [obuf_node.size, hrd, obuf_node.word]
    norm_num at h16 ⊢
    omega
  · rw [write_leader_eq cap b o gt v sz hacc, hmod]
    simp only [obuf_node.data, sizeof_obuf_node] at hfit ⊢
    apply List.ext_getElem?
    intro i
    have hlen : (v.take sz).length = sz := by simp [List.length_take, hv]
    simp only [List.getElem?_take, List.getElem?_drop]
    by_cases hi : i < sz
    · rw [if_pos hi, if_pos hi,
        getElem?_write_buf o._buf (le32 (obuf_node.word b gt.toNat (ALIGN4 sz)))
          (v.take sz) o._idx (o._idx + (4 + ALIGN4 sz)) (o._idx + 4 + i) rfl
          (by omega) (by omega)]
      have e1 : ¬ (o._idx + 4 + i = o._idx + (4 + ALIGN4 sz)) := by omega
      have e2 : ¬ (o._idx ≤ o._idx + 4 + i ∧ o._idx + 4 + i < o._idx + 4) := by omega
      have e3 : o._idx + 4 ≤ o._idx + 4 + i ∧ o._idx + 4 + i < o._idx + 4 + (v.take sz).length := by
        omega
      rw [if_neg e1, if_neg e2, if_pos e3, List.getElem?_take, if_pos (by omega)]
      congr 1
      omega
    · rw [if_neg hi, if_neg hi]
  · intro h4
    rw [hidx]
    simp only [sizeof_obuf_node]
    obtain ⟨_, _, h4A⟩ := hA
    omega

/-- Witness of C2: thread 0 of block 5 writes the two bytes of a one-character
string into a cleared buffer of 32 bytes. -/
theorem write_accepted_record_witness :
    obuf_node.id (Ostream._write 32 0 5 (Ostream.new (List.replicate 32 0)).clear
      .GT_STR [65, 0] 2)._buf 0 = 5 ∧
    obuf_node.data (Ostream._write 32 0 5 (Ostream.new (List.replicate 32 0)).clear
      .GT_STR [65, 0] 2)._buf 0 2 = [65, 0] :=
  have h := write_accepted_record 32 5 (Ostream.new (List.replicate 32 0)).clear
    .GT_STR [65, 0] 2 (by decide) (by decide) (by decide) (by decide)
  ⟨h.2.1 (by decide), h.2.2.2.2.2.1⟩

/-- C3, as the code behaves. The end marker that `_write` and `clear` store is
the byte at the cursor, which is the low byte of the producer-id field of the
next header, not its kind field.
(1) Thread 0 of block 0 writes a one-character string into a cleared channel:
the record is stored (cursor 8), yet its first byte is 0, so the walk that
stops at the byte `GT_EMPTY` yields no record.
(2) A channel that held an 8-byte string of block 1 is cleared and block 1
writes a one-character string: the walk that stops at a header of kind
`GT_EMPTY` yields the written record and then a second record, of kind 6, read
from the bytes that the earlier string left behind the cursor. -/
theorem walk_does_not_yield_written_records :
    (Ostream._write 32 0 0 (Ostream.new (List.replicate 32 0)).clear
        .GT_STR [65, 0] 2)._idx = 8 ∧
    (Ostream._write 32 0 0 (Ostream.new (List.replicate 32 0)).clear
        .GT_STR [65, 0] 2).records = [] ∧
    walkKind (Ostream._write 32 0 1
        (Ostream._write 32 0 1 (Ostream.new (List.replicate 32 0)).clear
          .GT_STR [97, 98, 99, 100, 101, 102, 103, 0] 8).clear
        .GT_STR [120, 0] 2).rdbuf 32 0
      = [⟨1, 4, [120, 0, 99, 100]⟩, ⟨1536, 6, List.replicate 20 0⟩] := by
  decide

/-- C4: a call of `_write` by a thread that is not the leader of its block
returns the channel as it was: buffer, cursor and formatting settings. -/
theorem write_non_leader_unchanged (cap tid b : Nat) (o : Ostream) (gt : GT)
    (v : List Nat) (sz : Nat) (h : tid ≠ 0) :
    Ostream._write cap tid b o gt v sz = o := by
  simp only [Ostream._write, if_pos h]

/-- Witness of C4: thread 3 of block 1 calls `_write`. -/
theorem write_non_leader_unchanged_witness :
    Ostream._write 32 3 1 (Ostream.new (List.replicate 32 0)) .GT_INT [7, 0, 0, 0] 4
      = Ostream.new (List.replicate 32 0) :=
  write_non_leader_unchanged 32 3 1 (Ostream.new (List.replicate 32 0)) .GT_INT
    [7, 0, 0, 0] 4 (by decide)

theorem getD_lt_of_bytes (buf : List Nat) (hb : ∀ x ∈ buf, x < 256) (i : Nat) :
    buf.getD i 0 < 256 := by
  rw [List.getD_eq_getElem?_getD]
  cases h : buf[i]? with
  | none => simp
  | some x => exact hb x (List.getElem?_mem h)

theorem getD_set_zero (buf : List Nat) (j : Nat) (hj : 0 < j) :
    (buf.set 0 0).getD j 0 = buf.getD j 0 := by
  simp only [List.getD_eq_getElem?_getD, List.getElem?_set]
  rw [if_neg (by omega)]

theorem getD_set_zero_self (buf : List Nat) : (buf.set 0 0).getD 0 0 = 0 := by
  simp only [List.getD_eq_getElem?_getD, List.getElem?_set, if_true]
  by_cases h : 0 < buf.length
  · simp [h]
  · simp [h]

/-- C5, as the code behaves. After `clear()` the cursor is 0 and `tellp()`
returns 0, the first byte of a buffer that is not empty is `GT_EMPTY`, base,
width, fill and precision are as before, and a second `clear()` changes
nothing. But `clear()` stores one byte, the low byte of the producer-id of the
first header: the kind and the size of that header stay as they were, so a
channel whose first record had a kind other than `GT_EMPTY` still decodes as
holding a record for a consumer that reads the kind field. -/
theorem clear_keeps_first_header (o : Ostream) (hb : ∀ x ∈ o._buf, x < 256) :
    o.clear._idx = 0 ∧ o.clear.tellp = 0 ∧
    (0 < o._buf.length → o.clear.rdbuf[0]? = some GT.GT_EMPTY.toNat) ∧
    (o.clear._base = o._base ∧ o.clear._width = o._width ∧
      o.clear._fill = o._fill ∧ o.clear._prec = o._prec) ∧
    o.clear.clear = o.clear ∧
    obuf_node.gt o.clear.rdbuf 0 = obuf_node.gt o._buf 0 ∧
    obuf_node.size o.clear.rdbuf 0 = obuf_node.size o._buf 0 ∧
    (obuf_node.gt o._buf 0 ≠ GT.GT_EMPTY.toNat →
      ∀ fuel, walkKind o.clear.rdbuf (fuel + 1) 0 ≠ []) := by
  have h0 := getD_lt_of_bytes o._buf hb 0
  have h1 := getD_lt_of_bytes o._buf hb 1
  have hrd : rd32 (o._buf.set 0 0) 0
      = 256 * o._buf.getD 1 0 + 65536 * o._buf.getD 2 0 + 16777216 * o._buf.getD 3 0 := by
    simp only [rd32, Nat.zero_add, getD_set_zero_self, getD_set_zero _ 1 (by omega),
      getD_set_zero _ 2 (by omega), getD_set_zero _ 3 (by omega)]
  have hgt : obuf_node.gt o.clear.rdbuf 0 = obuf_node.gt o._buf 0 := by
    simp only [obuf_node.gt, Ostream.rdbuf, Ostream.clear, GT.toNat, hrd]
    simp only [rd32, Nat.zero_add]
    generalize o._buf.getD 0 0 = b0 at h0 ⊢
    generalize o._buf.getD 1 0 = b1 at h1 ⊢
    generalize o._buf.getD 2 0 = b2
    generalize o._buf.getD 3 0 = b3
    norm_num
    omega
  have hsz : obuf_node.size o.clear.rdbuf 0 = obuf_node.size o._buf 0 := by
    simp only [obuf_node.size, Ostream.rdbuf, Ostream.clear, GT.toNat, hrd]
    simp only [rd32, Nat.zero_add]
    generalize o._buf.getD 0 0 = b0 at h0 ⊢
    generalize o._buf.getD 1 0 = b1 at h1 ⊢
    generalize o._buf.getD 2 0 = b2
    generalize o._buf.getD 3 0 = b3
    norm_num
    omega
  refine ⟨rfl, rfl, ?_, ⟨rfl, rfl, rfl, rfl⟩, ?_, hgt, hsz, ?_⟩
  · intro h
    simp only [Ostream.rdbuf, Ostream.clear, List.getElem?_set]
    simp [h]
  · simp only [Ostream.clear]
    congr 1
    apply List.ext_getElem?
    intro i
    simp only [List.getElem?_set, List.length_set]
    by_cases hi : 0 = i
    · simp [hi]
    · simp [hi]
  · intro hk fuel h
    rw [← hgt] at hk
    simp only [walkKind, if_neg hk] at h
    exact List.noConfusion h

/-- Witness of C5: thread 0 of block 1 writes the character 'A' into a cleared
buffer of 32 bytes, then the channel is cleared: its first byte is `GT_EMPTY`,
and the consumer that reads the kind field still finds the record, now with
producer-id 0. -/
theorem clear_keeps_first_header_witness :
    (Ostream.shl_U8 ⟨32, 0, 1, 4, 4⟩ (Ostream.new (List.replicate 32 0)).clear
      65).clear.rdbuf[0]? = some GT.GT_EMPTY.toNat ∧
    walkKind (Ostream.shl_U8 ⟨32, 0, 1, 4, 4⟩ (Ostream.new (List.replicate 32 0)).clear
      65).clear.rdbuf 32 0 ≠ [] ∧
    walkKind (Ostream.shl_U8 ⟨32, 0, 1, 4, 4⟩ (Ostream.new (List.replicate 32 0)).clear
      65).clear.rdbuf 32 0 = [⟨0, 4, [65, 0, 0, 0]⟩] :=
  have h := clear_keeps_first_header
    (Ostream.shl_U8 ⟨32, 0, 1, 4, 4⟩ (Ostream.new (List.replicate 32 0)).clear 65)
    (by decide)
  ⟨h.2.2.1 (by decide), h.2.2.2.2.2.2.2 (by decide) 31, by decide⟩

/-! ## The stacks -/

/-- C6, as the code behaves. In `vm/eforth.h`: when the parameter stack is not
full, `PUSH(v)` succeeds and the `POP()` right after it returns `v` and gives
back the state before the `PUSH`, cached top-of-stack and parameter stack
included; `POP()` on a stack that is not empty returns, and whenever `POP()`
returns, the value is the one that was in the cached top-of-stack cell.
In `eforth.h`: `POP()` behaves the same, but `PUSH(v)` has no return statement,
so no call of it has a defined result and there is no state in which a `POP()`
could follow: with room on the stack the call ends by flowing off the end of
the function. -/
theorem push_pop_roundtrip (m : vm.ForthVM) (m0 : ForthVM) (v : DU) :
    (m.SS.v.length < m.SS.max →
      ∃ m1, m.PUSH v = .ok (v, m1) ∧ m1.POP = .ok (v, m)) ∧
    (m.SS.v ≠ [] → ∃ m1, m.POP = .ok (m.TOS, m1)) ∧
    (∀ n m1, m.POP = .ok (n, m1) → n = m.TOS) ∧
    (∀ r, m0.PUSH v ≠ .ok r) ∧
    (m0.ss.v.length < m0.ss.max → m0.PUSH v
      = .error (.no_return { m0 with ss := { m0.ss with v := m0.top :: m0.ss.v }, top := v })) ∧
    (m0.ss.v ≠ [] → ∃ m1, m0.POP = .ok (m0.top, m1)) ∧
    (∀ n m1, m0.POP = .ok (n, m1) → n = m0.top) := by
  refine ⟨?_, ?_, ?_, ?_, ?_, ?_, ?_⟩
  · intro h
    refine ⟨{ m with SS := { m.SS with v := m.TOS :: m.SS.v }, TOS := v }, ?_, ?_⟩
    · simp [vm.ForthVM.PUSH, Vector.push, h]
    · simp [vm.ForthVM.POP, Vector.pop]
  · intro h
    obtain ⟨WP, IP, TOS, compile, base, ⟨l, mx⟩⟩ := m
    cases l with
    | nil => exact absurd rfl h
    | cons t r => exact ⟨_, rfl⟩
  · intro n m1 h
    obtain ⟨WP, IP, TOS, compile, base, ⟨l, mx⟩⟩ := m
    cases l with
    | nil => simp [vm.ForthVM.POP, Vector.pop] at h
    | cons t r =>
      simp only [vm.ForthVM.POP, Vector.pop, Except.ok.injEq, Prod.mk.injEq] at h
      exact h.1.symm
  · intro r h
    unfold ForthVM.PUSH at h
    cases hp : m0.ss.push m0.top with
    | error e => rw [hp] at h; exact Except.noConfusion h
    | ok ss => rw [hp] at h; exact Except.noConfusion h
  · intro h
    simp [ForthVM.PUSH, Vector.push, h]
  · intro h
    obtain ⟨status, top, rs, ⟨l, mx⟩, ucase, compile, radix, WP⟩ := m0
    cases l with
    | nil => exact absurd rfl h
    | cons t r => exact ⟨_, rfl⟩
  · intro n m1 h
    obtain ⟨status, top, rs, ⟨l, mx⟩, ucase, compile, radix, WP⟩ := m0
    cases l with
    | nil => simp [ForthVM.POP, Vector.pop] at h
    | cons t r =>
      simp only [ForthVM.POP, Vector.pop, Except.ok.injEq, Prod.mk.injEq] at h
      exact h.1.symm

/-- Witness of C6: a VM with top-of-stack 7 and the stack 3, 2 below it, of
capacity 4, pushes 9. In `vm/eforth.h` the `POP()` after it returns 9 and the
state is as before; in `eforth.h` the `PUSH` flows off the end of the
function. -/
theorem push_pop_roundtrip_witness :
    (∃ m1, vm.ForthVM.PUSH ⟨0, 0, 7, false, 10, ⟨[3, 2], 4⟩⟩ 9 = .ok (9, m1) ∧
      m1.POP = .ok (9, ⟨0, 0, 7, false, 10, ⟨[3, 2], 4⟩⟩)) ∧
    ForthVM.PUSH ⟨.VM_READY, 7, ⟨[], 4⟩, ⟨[3, 2], 4⟩, true, false, 10, 0⟩ 9
      = .error (.no_return ⟨.VM_READY, 9, ⟨[], 4⟩, ⟨[7, 3, 2], 4⟩, true, false, 10, 0⟩) :=
  have h := push_pop_roundtrip ⟨0, 0, 7, false, 10, ⟨[3, 2], 4⟩⟩
    ⟨.VM_READY, 7, ⟨[], 4⟩, ⟨[3, 2], 4⟩, true, false, 10, 0⟩ 9
  ⟨h.1 (by decide), h.2.2.2.2.1 (by decide)⟩

/-! ## The compiler proxies -/

theorem length_leBytes (k : Nat) : ∀ n : Nat, (leBytes k n).length = k := by
  induction k with
  | zero => intro n; rfl
  | succ k ih => intro n; simp [leBytes, ih]

theorem ofLeBytes_leBytes (k : Nat) : ∀ n : Nat, n < 256 ^ k → ofLeBytes (leBytes k n) = n := by
  induction k with
  | zero =>
    intro n hn
    simp only [pow_zero, Nat.lt_one_iff] at hn
    simp [leBytes, ofLeBytes, hn]
  | succ k ih =>
    intro n hn
    have h1 : n / 256 < 256 ^ k := by
      rw [Nat.div_lt_iff_lt_mul (by norm_num)]
      rw [pow_succ] at hn
      exact hn
    simp only [leBytes, ofLeBytes, ih _ h1]
    omega

theorem take_leBytes (k n : Nat) : (leBytes k n).take k = leBytes k n := by
  rw [List.take_of_length_le (by rw [length_leBytes])]

theorem bool_toNat_lt (b : Bool) : b.toNat < 2 := by
  cases b <;> decide

theorem beq_one_of_toNat (b : Bool) : (b.toNat == 1) = b := by
  cases b <;> rfl

theorem toNat_mod_two_beq (n : Nat) : (n % 2 == 1).toNat = n % 2 := by
  rcases Nat.mod_two_eq_zero_or_one n with h | h <;> simp [h]

/-- Decoding the digits of a number written in the mixed radix `A`, `B`, 2, 2. -/
theorem radix_decode (A B i o u e : Nat) (hi : i < A) (ho : o < B) (hu : u < 2) (he : e < 2) :
    (i + A * (o + B * (u + 2 * e))) % A = i ∧
    (i + A * (o + B * (u + 2 * e))) / A % B = o ∧
    (i + A * (o + B * (u + 2 * e))) / (A * B) % 2 = u ∧
    (i + A * (o + B * (u + 2 * e))) / (A * B * 2) % 2 = e := by
  have hA : 0 < A := by omega
  have hB : 0 < B := by omega
  have h1 : (i + A * (o + B * (u + 2 * e))) / A = o + B * (u + 2 * e) := by
    rw [Nat.add_mul_div_left _ _ hA, Nat.div_eq_of_lt hi, Nat.zero_add]
  have h2 : (o + B * (u + 2 * e)) / B = u + 2 * e := by
    rw [Nat.add_mul_div_left _ _ hB, Nat.div_eq_of_lt ho, Nat.zero_add]
  refine ⟨?_, ?_, ?_, ?_⟩
  · rw [Nat.add_mul_mod_self_left, Nat.mod_eq_of_lt hi]
  · rw [h1, Nat.add_mul_mod_self_left, Nat.mod_eq_of_lt ho]
  · rw [← Nat.div_div_eq_div_mul, h1, h2]
    omega
  · rw [← Nat.div_div_eq_div_mul, ← Nat.div_div_eq_div_mul, h1, h2]
    omega

/-- Encoding the digits of a number below `A * B * 4` gives the number back. -/
theorem radix_encode (A B x : Nat) (hx : x < A * B * 4) :
    x % A + A * (x / A % B + B * (x / (A * B) % 2 + 2 * (x / (A * B * 2) % 2))) = x := by
  have h4 : x / A / B / 2 < 2 := by
    rw [Nat.div_div_eq_div_mul, Nat.div_div_eq_div_mul]
    apply Nat.div_lt_of_lt_mul
    linarith
  simp only [← Nat.div_div_eq_div_mul]
  rw [Nat.mod_eq_of_lt h4, Nat.mod_add_div, Nat.mod_add_div, Nat.mod_add_div]

theorem pack_unpack (P : Platform) (x : IU) (hx : x < 2 ^ P.param_bits) :
    Param.pack P (Param.unpack P x) = x := by
  have hx' : x < 2 ^ P.ioff_bits * 2 ^ P.op_bits * 4 := by
    simp only [Platform.param_bits, pow_add] at hx
    norm_num at hx
    exact hx
  have key := radix_encode _ _ x hx'
  simp only [Param.pack, Param.unpack, toNat_mod_two_beq, Nat.mod_mod, pow_add, pow_one]
  exact key

theorem unpack_pack (P : Platform) (p : Param) (hoff : p.ioff < 2 ^ P.ioff_bits)
    (hop : p.op < 2 ^ P.op_bits) : Param.unpack P (Param.pack P p) = p := by
  obtain ⟨h1, h2, h3, h4⟩ := radix_decode _ _ _ _ _ _ hoff hop
    (bool_toNat_lt p.udf) (bool_toNat_lt p.exit)
  obtain ⟨op, ioff, udf, exit⟩ := p
  simp only [Param.pack, Param.unpack, pow_add, pow_one, Nat.mod_eq_of_lt hoff,
    Nat.mod_eq_of_lt hop] at h1 h2 h3 h4 ⊢
  simp only [h1, h2, h3, h4, beq_one_of_toNat]

theorem pack_lt (P : Platform) (p : Param) : Param.pack P p < 2 ^ P.param_bits := by
  have hi : p.ioff % 2 ^ P.ioff_bits < 2 ^ P.ioff_bits := Nat.mod_lt _ (by positivity)
  have ho : p.op % 2 ^ P.op_bits < 2 ^ P.op_bits := Nat.mod_lt _ (by positivity)
  have hu := bool_toNat_lt p.udf
  have he := bool_toNat_lt p.exit
  simp only [Param.pack, Platform.param_bits, pow_add]
  norm_num
  generalize 2 ^ P.ioff_bits = A at *
  generalize 2 ^ P.op_bits = B at *
  generalize p.ioff % A = i at *
  generalize p.op % B = o at *
  have h1 : o + B * (p.udf.toNat + 2 * p.exit.toNat) + 1 ≤ B * 4 := by nlinarith
  have h2 := Nat.mul_le_mul_left A h1
  calc i + A * (o + B * (p.udf.toNat + 2 * p.exit.toNat))
      < A + A * (o + B * (p.udf.toNat + 2 * p.exit.toNat)) := by omega
    _ = A * (o + B * (p.udf.toNat + 2 * p.exit.toNat) + 1) := by ring
    _ ≤ A * (B * 4) := h2
    _ = A * B * 4 := by ring

theorem add_iu_pmem (P : Platform) (mmu : MMU) (i : IU) :
    (vm.ForthVM.add_iu P mmu i).pmem = mmu.pmem ++ leBytes P.sizeof_IU i := by
  simp [vm.ForthVM.add_iu, MMU.add, take_leBytes]

theorem add_du_pmem (P : Platform) (mmu : MMU) (d : DU) :
    (vm.ForthVM.add_du P mmu d).pmem = mmu.pmem ++ leBytes P.sizeof_DU d := by
  simp [vm.ForthVM.add_du, MMU.add, take_leBytes]

/-- The instruction unit read back at the old high-water mark after `add_iu`. -/
theorem fetch_add_iu (P : Platform) (mmu : MMU) (i : IU) (rest : List Nat)
    (hi : i < 256 ^ P.sizeof_IU) :
    ofLeBytes (((mmu.pmem ++ leBytes P.sizeof_IU i ++ rest).drop mmu.pmem.length).take
      P.sizeof_IU) = i := by
  rw [List.append_assoc, List.drop_left, List.take_left' (length_leBytes _ _),
    ofLeBytes_leBytes _ _ hi]

theorem pack_lt_bytes (P : Platform) (p : Param) (hIU : P.param_bits ≤ 8 * P.sizeof_IU) :
    Param.pack P p < 256 ^ P.sizeof_IU := by
  have h1 : (256 : Nat) ^ P.sizeof_IU = 2 ^ (8 * P.sizeof_IU) := by
    rw [pow_mul]
    norm_num
  rw [h1]
  exact lt_of_lt_of_le (pack_lt P p) (Nat.pow_le_pow_right (by decide) hIU)

/-- C7: `add_lit(v, e)` appends to the arena the bytes of one instruction unit,
which decodes to opcode `LIT`, offset 0, user-defined flag false and exit flag
`e`, and right after it the `sizeof(DU)` raw bytes of `v`; the arena grows by
`sizeof(IU) + sizeof(DU)` bytes and its earlier bytes are unchanged. -/
theorem add_lit_appends (P : Platform) (mmu : MMU) (v : DU) (e : Bool)
    (hLIT : P.LIT < 2 ^ P.op_bits) (hIU : P.param_bits ≤ 8 * P.sizeof_IU) :
    (vm.ForthVM.add_lit P mmu v e).pmem
      = mmu.pmem ++ leBytes P.sizeof_IU (Param.pack P ⟨P.LIT, 0, false, e⟩)
          ++ leBytes P.sizeof_DU v ∧
    Param.unpack P ((vm.ForthVM.add_lit P mmu v e).fetch_IU P mmu.pmem.length)
      = ⟨P.LIT, 0, false, e⟩ ∧
    (vm.ForthVM.add_lit P mmu v e).pmem.drop (mmu.pmem.length + P.sizeof_IU)
      = leBytes P.sizeof_DU v ∧
    (v < 256 ^ P.sizeof_DU →
      (vm.ForthVM.add_lit P mmu v e).fetch_DU P (mmu.pmem.length + P.sizeof_IU) = v) ∧
    (vm.ForthVM.add_lit P mmu v e).pmem.length
      = mmu.pmem.length + (P.sizeof_IU + P.sizeof_DU) ∧
    (vm.ForthVM.add_lit P mmu v e).pmem.take mmu.pmem.length = mmu.pmem := by
  have hp : (vm.ForthVM.add_lit P mmu v e).pmem
      = mmu.pmem ++ leBytes P.sizeof_IU (Param.pack P ⟨P.LIT, 0, false, e⟩)
          ++ leBytes P.sizeof_DU v := by
    simp only [vm.ForthVM.add_lit, vm.ForthVM.add_p, vm.ForthVM.add_w, add_du_pmem, add_iu_pmem]
  have hdrop : (vm.ForthVM.add_lit P mmu v e).pmem.drop (mmu.pmem.length + P.sizeof_IU)
      = leBytes P.sizeof_DU v := by
    rw [hp]
    have hl : (mmu.pmem ++ leBytes P.sizeof_IU (Param.pack P ⟨P.LIT, 0, false, e⟩)).length
        = mmu.pmem.length + P.sizeof_IU := by
      rw [List.length_append, length_leBytes]
    rw [← hl, List.drop_left]
  refine ⟨hp, ?_, hdrop, ?_, ?_, ?_⟩
  · simp only [MMU.fetch_IU, hp]
    rw [fetch_add_iu P mmu _ _ (pack_lt_bytes P _ hIU)]
    exact unpack_pack P _ (by simp) hLIT
  · intro hv
    simp only [MMU.fetch_DU, hdrop]
    rw [take_leBytes, ofLeBytes_leBytes _ _ hv]
  · rw [hp]
    simp only [List.length_append, length_leBytes]
    omega
  · rw [hp, List.append_assoc, List.take_left]

/-- Witness of C7: 32-bit instruction units (16 offset bits, 8 opcode bits) and
32-bit cells; the literal `0x40490FDB` is compiled with the exit flag set. -/
theorem add_lit_appends_witness :
    (vm.ForthVM.add_lit ⟨4, 4, 4, 3, 255, 16, 8⟩ ⟨[1, 2, 3, 4], []⟩ 0x40490FDB true).pmem
      = [1, 2, 3, 4] ++ leBytes 4 (Param.pack ⟨4, 4, 4, 3, 255, 16, 8⟩ ⟨3, 0, false, true⟩)
          ++ leBytes 4 0x40490FDB :=
  (add_lit_appends ⟨4, 4, 4, 3, 255, 16, 8⟩ ⟨[1, 2, 3, 4], []⟩ 0x40490FDB true
    (by decide) (by decide)).1

theorem STRLENB_append (str rest : List Nat) (hstr : ∀ c ∈ str, c ≠ 0) :
    STRLENB (str ++ 0 :: rest) = str.length := by
  induction str with
  | nil => simp [STRLENB]
  | cons c cs ih =>
    have hc : c ≠ 0 := hstr c (List.mem_cons_self _ _)
    have hcs : ∀ d ∈ cs, d ≠ 0 := fun d hd => hstr d (List.mem_cons_of_mem _ hd)
    have ih' := ih hcs
    simp only [STRLENB] at ih' ⊢
    simp [List.takeWhile_cons, hc, ih']

/-- `ALIGN` gives the least multiple of the alignment unit that is at least
the size. -/
theorem ALIGN_spec (P : Platform) (sz : Nat) (ha : 0 < P.align) :
    P.align ∣ ALIGN P sz ∧ sz ≤ ALIGN P sz ∧
    ∀ k, P.align ∣ k → sz ≤ k → ALIGN P sz ≤ k := by
  unfold ALIGN
  refine ⟨Dvd.intro_left _ rfl, ?_, ?_⟩
  · have h1 := Nat.div_add_mod (sz + P.align - 1) P.align
    have h2 := Nat.mod_lt (sz + P.align - 1) ha
    rw [Nat.mul_comm] at h1
    omega
  · rintro k ⟨j, rfl⟩ hk
    have h1 : (sz + P.align - 1) / P.align < j + 1 := by
      rw [Nat.div_lt_iff_lt_mul ha]
      have : (j + 1) * P.align = P.align * j + P.align := by ring
      omega
    calc (sz + P.align - 1) / P.align * P.align
        ≤ j * P.align := Nat.mul_le_mul_right _ (by omega)
      _ = P.align * j := Nat.mul_comm _ _

/-- C8: for a string `str` (bytes other than 0) stored with its terminator and
followed in memory by `rest`, `add_str` returns the least multiple of the
alignment unit that is at least `len + 1`, with `adv` set or not; with
`adv = true`, the padded length being readable at the pointer, the arena grows
by exactly the returned length, the first `len + 1` new bytes are the string
and its terminator, and the earlier bytes are unchanged. -/
theorem add_str_padded (P : Platform) (mmu : MMU) (str rest : List Nat)
    (hstr : ∀ c ∈ str, c ≠ 0) (ha : 0 < P.align)
    (hmem : ALIGN P (str.length + 1) ≤ (str ++ 0 :: rest).length) :
    (vm.ForthVM.add_str P mmu (str ++ 0 :: rest) true).1 = ALIGN P (str.length + 1) ∧
    (vm.ForthVM.add_str P mmu (str ++ 0 :: rest) false).1 = ALIGN P (str.length + 1) ∧
    (P.align ∣ ALIGN P (str.length + 1) ∧ str.length + 1 ≤ ALIGN P (str.length + 1) ∧
      ∀ k, P.align ∣ k → str.length + 1 ≤ k → ALIGN P (str.length + 1) ≤ k) ∧
    (vm.ForthVM.add_str P mmu (str ++ 0 :: rest) true).2.pmem.length
      = mmu.pmem.length + (vm.ForthVM.add_str P mmu (str ++ 0 :: rest) true).1 ∧
    ((vm.ForthVM.add_str P mmu (str ++ 0 :: rest) true).2.pmem.drop mmu.pmem.length).take
      (str.length + 1) = str ++ [0] ∧
    (vm.ForthVM.add_str P mmu (str ++ 0 :: rest) true).2.pmem.take mmu.pmem.length
      = mmu.pmem := by
  have hA := ALIGN_spec P (str.length + 1) ha
  have hlen := STRLENB_append str rest hstr
  have hp : (vm.ForthVM.add_str P mmu (str ++ 0 :: rest) true).2.pmem
      = mmu.pmem ++ (str ++ 0 :: rest).take (ALIGN P (str.length + 1)) := by
    simp only [vm.ForthVM.add_str, MMU.add, hlen, if_true]
  refine ⟨?_, ?_, hA, ?_, ?_, ?_⟩
  · simp only [vm.ForthVM.add_str, hlen]
  · simp only [vm.ForthVM.add_str, hlen]
  · rw [hp]
    simp only [vm.ForthVM.add_str, hlen, List.length_append, List.length_take,
      List.length_cons] at hmem ⊢
    omega
  · rw [hp, List.drop_left, List.take_take, Nat.min_eq_left hA.2.1]
    have h1 : str ++ 0 :: rest = (str ++ [0]) ++ rest := by simp
    rw [h1, List.take_left' (by simp)]
  · rw [hp, List.take_left]

/-- Witness of C8: the string "abcd" with alignment unit 4: 5 bytes with the
terminator, padded to 8. -/
theorem add_str_padded_witness :
    (vm.ForthVM.add_str ⟨4, 4, 4, 3, 255, 16, 8⟩ ⟨[9], []⟩
      ([97, 98, 99, 100] ++ 0 :: [7, 7, 7]) true).1 = 8 :=
  (add_str_padded ⟨4, 4, 4, 3, 255, 16, 8⟩ ⟨[9], []⟩ [97, 98, 99, 100] [7, 7, 7]
    (by decide) (by decide) (by decide)).1

/-- C9: a bit pattern `x` that uses only the bits of `Param` is given back by
packing the fields unpacked from it; and for fields within their widths, the
instruction unit that `add_p` compiles, and the one that `add_w` compiles for
the dictionary entry `w`, unpack to the fields they were packed from. -/
theorem param_pack_roundtrip (P : Platform) (x : IU) (op : Nat) (ip : IU) (u e : Bool)
    (dict : List Code) (w : IU) (c : Code) (mmu : MMU)
    (hx : x < 2 ^ P.param_bits)
    (hop : op < 2 ^ P.op_bits) (hip : ip < 2 ^ P.ioff_bits)
    (hIU : P.param_bits ≤ 8 * P.sizeof_IU)
    (hw : dict[w]? = some c) (hpfa : c.pfa < 2 ^ P.ioff_bits)
    (hmax : P.MAX_OP < 2 ^ P.op_bits) :
    Param.pack P (Param.unpack P x) = x ∧
    Param.unpack P (Param.pack P ⟨op, ip, u, e⟩) = ⟨op, ip, u, e⟩ ∧
    Param.unpack P ((vm.ForthVM.add_p P mmu op ip u e).fetch_IU P mmu.pmem.length)
      = ⟨op, ip, u, e⟩ ∧
    ∃ m1, vm.ForthVM.add_w_IU P dict mmu w = some m1 ∧
      Param.unpack P (m1.fetch_IU P mmu.pmem.length) = ⟨P.MAX_OP, c.pfa, c.udf, false⟩ := by
  have hfetch : ∀ p : Param, (vm.ForthVM.add_w P mmu p).fetch_IU P mmu.pmem.length
      = Param.pack P p := by
    intro p
    have h := fetch_add_iu P mmu (Param.pack P p) [] (pack_lt_bytes P p hIU)
    simp only [MMU.fetch_IU, vm.ForthVM.add_w, add_iu_pmem]
    rw [List.append_nil] at h
    exact h
  refine ⟨pack_unpack P x hx, unpack_pack P _ hip hop, ?_, ?_⟩
  · rw [vm.ForthVM.add_p, hfetch]
    exact unpack_pack P _ hip hop
  · refine ⟨vm.ForthVM.add_w P mmu ⟨P.MAX_OP, c.pfa, c.udf, false⟩, ?_, ?_⟩
    · simp only [vm.ForthVM.add_w_IU, hw]
    rw [hfetch]
    exact unpack_pack P _ hpfa hmax

/-- Witness of C9: 32-bit instruction units with 16 offset bits and 8 opcode
bits; the pattern `0x2FF0010`, and a dictionary of one user-defined word. -/
theorem param_pack_roundtrip_witness :
    Param.pack ⟨4, 4, 4, 3, 255, 16, 8⟩ (Param.unpack ⟨4, 4, 4, 3, 255, 16, 8⟩ 0x2FF0010)
      = 0x2FF0010 ∧
    Param.unpack ⟨4, 4, 4, 3, 255, 16, 8⟩ (Param.pack ⟨4, 4, 4, 3, 255, 16, 8⟩ ⟨7, 300, true, false⟩)
      = ⟨7, 300, true, false⟩ :=
  have h := param_pack_roundtrip ⟨4, 4, 4, 3, 255, 16, 8⟩ 0x2FF0010 7 300 true false
    [⟨[88], 40, true, false⟩] 0 ⟨[88], 40, true, false⟩ ⟨[], []⟩
    (by decide) (by decide) (by decide) (by decide) (by decide) (by decide) (by decide)
  ⟨h.1, h.2.1⟩

/-! ## Tagged cells -/

/-- C10: for an object located within the handle subspace, the cell that
`obj2du` produces passes `IS_OBJ` and `du2obj` decodes it to the same object;
so after `PUSH(t)` the top-of-stack is a handle and `TTOS` is `t`. -/
theorem handle_roundtrip (T : Tagging) (o : Nat) (m : vm.ForthVM) (ho : o < 2 ^ T.bits) :
    du2obj T (obj2du T o) = .ok o ∧
    IS_OBJ T (obj2du T o) = true ∧
    (m.SS.v.length < m.SS.max →
      ∃ m1, m.PUSH_obj T o = .ok (obj2du T o, m1) ∧
        IS_OBJ T m1.TOS = true ∧ m1.TTOS T = .ok o) := by
  have hpos : 0 < 2 ^ T.bits := by positivity
  have h1 : (T.tag * 2 ^ T.bits + o % 2 ^ T.bits) / 2 ^ T.bits = T.tag := by
    rw [Nat.mod_eq_of_lt ho, Nat.mul_comm, Nat.mul_add_div hpos, Nat.div_eq_of_lt ho,
      Nat.add_zero]
  have h2 : (T.tag * 2 ^ T.bits + o % 2 ^ T.bits) % 2 ^ T.bits = o := by
    rw [Nat.mod_eq_of_lt ho, Nat.mul_comm, Nat.mul_add_mod, Nat.mod_eq_of_lt ho]
  have hobj : IS_OBJ T (obj2du T o) = true := by
    simp only [IS_OBJ, obj2du, h1, beq_self_eq_true]
  have hdec : du2obj T (obj2du T o) = .ok o := by
    simp only [du2obj, hobj, if_true]
    simp only [obj2du, h2]
  refine ⟨hdec, hobj, ?_⟩
  intro hroom
  refine ⟨{ m with SS := { m.SS with v := m.TOS :: m.SS.v }, TOS := obj2du T o }, ?_, hobj, hdec⟩
  simp [vm.ForthVM.PUSH_obj, Vector.push, hroom]

/-- Witness of C10: handles carry the tag `0x3FF` above 22 location bits (the
patterns from `0xFFC00000` on); the object at location 4096. -/
theorem handle_roundtrip_witness :
    du2obj ⟨0x3FF, 22⟩ (obj2du ⟨0x3FF, 22⟩ 4096) = .ok 4096 :=
  (handle_roundtrip ⟨0x3FF, 22⟩ 4096 ⟨0, 0, 7, false, 10, ⟨[3, 2], 4⟩⟩ (by decide)).1

/-! ## The dictionary search -/

theorem name_eq_self (ucase : Bool) (a : List Nat) : name_eq ucase a a = true := by
  cases ucase <;> simp [name_eq]

/-- The scan over the entries below `n` does not see entries appended later. -/
theorem scan_append (ucase : Bool) (dict more : List Code) (name : List Nat) :
    ∀ n, n ≤ dict.length →
      MMU.scan ucase (dict ++ more) name n = MMU.scan ucase dict name n := by
  intro n
  induction n with
  | zero => intro _; rfl
  | succ i ih =>
    intro h
    have hi : i < dict.length := by omega
    simp only [MMU.scan, List.getElem?_append_left hi, ih (by omega)]

/-- C11: after a word named `name` is defined and its definition finalized,
`FIND(name)` returns the index of the new entry, which is the last one of the
dictionary, whatever entries (also of the same name) were there before; the
older entries keep their indices; while the definition is still open, `FIND`
searches only the older entries. -/
theorem find_after_define (ucase : Bool) (m : vm.ForthVM) (dict : List Code) (mmu : MMU)
    (name : List Nat) :
    vm.ForthVM.FIND ucase (m._def_word dict mmu name).1.end_def
        (m._def_word dict mmu name).2 name = (dict.length : Int) ∧
    (m._def_word dict mmu name).2[dict.length]?
      = some { name := name, pfa := mmu.pmem.length, udf := true, immd := false } ∧
    (m._def_word dict mmu name).2.length = dict.length + 1 ∧
    (∀ i, i < dict.length → (m._def_word dict mmu name).2[i]? = dict[i]?) ∧
    vm.ForthVM.FIND ucase (m._def_word dict mmu name).1 (m._def_word dict mmu name).2 name
      = MMU.find ucase dict name false := by
  have hget : (m._def_word dict mmu name).2[dict.length]?
      = some { name := name, pfa := mmu.pmem.length, udf := true, immd := false } := by
    simp only [vm.ForthVM._def_word]
    rw [List.getElem?_append_right (le_refl _)]
    simp
  refine ⟨?_, hget, ?_, ?_, ?_⟩
  · simp only [vm.ForthVM.FIND, vm.ForthVM._def_word, vm.ForthVM.end_def, MMU.find,
      List.length_append, List.length_singleton, Bool.false_eq_true, if_false, MMU.scan] at hget ⊢
    simp only [hget, name_eq_self, if_true]
  · simp [vm.ForthVM._def_word]
  · intro i hi
    simp only [vm.ForthVM._def_word, List.getElem?_append_left hi]
  · simp only [vm.ForthVM.FIND, vm.ForthVM._def_word, MMU.find, if_true,
      List.length_append, List.length_singleton, Nat.add_sub_cancel, Bool.false_eq_true,
      if_false]
    exact scan_append ucase dict _ name dict.length (le_refl _)

/-! ## The insertion operators -/

/-- `_write` changes none of the formatting settings. -/
theorem write_fmt (cap tid b : Nat) (o : Ostream) (gt : GT) (v : List Nat) (sz : Nat) :
    (Ostream._write cap tid b o gt v sz)._base = o._base ∧
    (Ostream._write cap tid b o gt v sz)._width = o._width ∧
    (Ostream._write cap tid b o gt v sz)._fill = o._fill ∧
    (Ostream._write cap tid b o gt v sz)._prec = o._prec := by
  unfold Ostream._write
  split_ifs <;> exact ⟨rfl, rfl, rfl, rfl⟩

/-- `_write` keeps the size of the buffer. -/
theorem length_write (cap tid b : Nat) (o : Ostream) (gt : GT) (v : List Nat) (sz : Nat) :
    (Ostream._write cap tid b o gt v sz)._buf.length = o._buf.length := by
  unfold Ostream._write
  split_ifs
  · rfl
  · rfl
  · simp only [List.length_set, MEMCPY, length_store]

/-- After an accepted `_write` inside the buffer, the byte at the new cursor
is the end marker. -/
theorem write_marker_at_cursor (cap b : Nat) (o : Ostream) (gt : GT) (v : List Nat) (sz : Nat)
    (hacc : sizeof_obuf_node + ALIGN4 sz ≤ cap)
    (hfit : o._idx + sizeof_obuf_node + ALIGN4 sz < o._buf.length)
    (h16 : ALIGN4 sz < 2 ^ 16) :
    (Ostream._write cap 0 b o gt v sz)._buf[(Ostream._write cap 0 b o gt v sz)._idx]?
      = some GT.GT_EMPTY.toNat := by
  rw [write_leader_eq cap b o gt v sz hacc, Nat.mod_eq_of_lt h16]
  simp only [sizeof_obuf_node] at hfit
  simp only [List.getElem?_set, length_store, if_true, GT.toNat]
  rw [if_pos (by omega)]

theorem rd32_congr (b1 b2 : List Nat) (n m : Nat) (h : ∀ i, i < m → b1[i]? = b2[i]?)
    (hn : n + 4 ≤ m) : rd32 b1 n = rd32 b2 n := by
  simp only [rd32, List.getD_eq_getElem?_getD, h n (by omega), h (n + 1) (by omega),
    h (n + 2) (by omega), h (n + 3) (by omega)]

theorem data_congr (b1 b2 : List Nat) (n k m : Nat) (h : ∀ i, i < m → b1[i]? = b2[i]?)
    (hn : n + sizeof_obuf_node + k ≤ m) : obuf_node.data b1 n k = obuf_node.data b2 n k := by
  unfold obuf_node.data
  apply List.ext_getElem?
  intro i
  simp only [List.getElem?_take, List.getElem?_drop]
  by_cases hi : i < k
  · rw [if_pos hi, if_pos hi, h _ (by omega)]
  · rw [if_neg hi, if_neg hi]

theorem takeWhile_append_zero (str rest : List Nat) (hstr : ∀ c ∈ str, c ≠ 0) :
    (str ++ 0 :: rest).takeWhile (fun c => c != 0) = str := by
  induction str with
  | nil => simp
  | cons c cs ih =>
    have hc : c ≠ 0 := hstr c (List.mem_cons_self _ _)
    have hcs : ∀ d ∈ cs, d ≠ 0 := fun d hd => hstr d (List.mem_cons_of_mem _ hd)
    simp [List.takeWhile_cons, hc, ih hcs]

/-- Reading a payload up to the first NUL, when it begins with a string and
its terminator. -/
theorem takeWhile_of_take (l str : List Nat) (hstr : ∀ c ∈ str, c ≠ 0)
    (h : l.take (str.length + 1) = str ++ [0]) :
    l.takeWhile (fun c => c != 0) = str := by
  have h1 : l = str ++ 0 :: l.drop (str.length + 1) := by
    conv_lhs => rw [← List.take_append_drop (str.length + 1) l, h]
    simp
  rw [h1]
  exact takeWhile_append_zero str _ hstr

theorem data_take (buf : List Nat) (n k j : Nat) (h : j ≤ k) :
    (obuf_node.data buf n k).take j = obuf_node.data buf n j := by
  unfold obuf_node.data
  rw [List.take_take, Nat.min_eq_left h]

/-- C13: for the leader thread and a record that lies inside the buffer,
`operator<<(GI)` stores a record of kind `GT_INT` exactly when the base is 10
and of kind `GT_HEX` for every other base, with the `sizeof(GI)` raw bytes of
the integer as payload; `operator<<(GF)` stores a record of kind `GT_FLOAT`
with the `sizeof(GF)` raw bytes of the value, whatever the base. -/
theorem shl_number_kind (E : Env) (o : Ostream) (i : GI) (f : GF)
    (hlead : E.threadIdx_x = 0)
    (hacc : sizeof_obuf_node + ALIGN4 E.sizeof_GI ≤ E.CUEF_OBUF_SIZE)
    (hfit : o._idx + sizeof_obuf_node + ALIGN4 E.sizeof_GI < o._buf.length)
    (h16 : ALIGN4 E.sizeof_GI < 2 ^ 16)
    (haccf : sizeof_obuf_node + ALIGN4 E.sizeof_GF ≤ E.CUEF_OBUF_SIZE)
    (hfitf : o._idx + sizeof_obuf_node + ALIGN4 E.sizeof_GF < o._buf.length)
    (h16f : ALIGN4 E.sizeof_GF < 2 ^ 16) :
    (obuf_node.gt (Ostream.shl_GI E o i)._buf o._idx = GT.GT_INT.toNat ↔ o._base = 10) ∧
    (o._base ≠ 10 → obuf_node.gt (Ostream.shl_GI E o i)._buf o._idx = GT.GT_HEX.toNat) ∧
    obuf_node.data (Ostream.shl_GI E o i)._buf o._idx E.sizeof_GI = GI.bytes E.sizeof_GI i ∧
    (Ostream.shl_GI E o i)._idx = o._idx + (sizeof_obuf_node + ALIGN4 E.sizeof_GI) ∧
    obuf_node.gt (Ostream.shl_GF E o f)._buf o._idx = GT.GT_FLOAT.toNat ∧
    obuf_node.data (Ostream.shl_GF E o f)._buf o._idx E.sizeof_GF = leBytes E.sizeof_GF f ∧
    (Ostream.shl_GF E o f)._idx = o._idx + (sizeof_obuf_node + ALIGN4 E.sizeof_GF) := by
  have hlen : (GI.bytes E.sizeof_GI i).length = E.sizeof_GI := length_leBytes _ _
  have hi := write_accepted_record E.CUEF_OBUF_SIZE E.blockIdx_x o
    (if o._base = 10 then GT.GT_INT else GT.GT_HEX) (GI.bytes E.sizeof_GI i) E.sizeof_GI
    hacc hfit h16 (by rw [hlen])
  have hf := write_accepted_record E.CUEF_OBUF_SIZE E.blockIdx_x o GT.GT_FLOAT
    (leBytes E.sizeof_GF f) E.sizeof_GF haccf hfitf h16f (by rw [length_leBytes])
  have hti : (GI.bytes E.sizeof_GI i).take E.sizeof_GI = GI.bytes E.sizeof_GI i :=
    List.take_of_length_le (by rw [hlen])
  simp only [Ostream.shl_GI, Ostream.shl_GF, hlead]
  rw [hti] at hi
  rw [take_leBytes] at hf
  refine ⟨?_, ?_, hi.2.2.2.2.2.1, hi.2.2.2.2.2.2.1, hf.2.2.1, hf.2.2.2.2.2.1,
    hf.2.2.2.2.2.2.1⟩
  · rw [hi.2.2.1]
    by_cases hb : o._base = 10
    · simp [hb]
    · simp [hb, GT.toNat]
  · intro hb
    rw [hi.2.2.1, if_neg hb]

/-- Witness of C13: thread 0 of block 1 writes the integer -2 with base 16 and
the float pattern `0x41100000` into a cleared buffer of 32 bytes. -/
theorem shl_number_kind_witness :
    obuf_node.gt (Ostream.shl_GI ⟨32, 0, 1, 4, 4⟩
      ((Ostream.new (List.replicate 32 0)).clear.shl_setbase 16) (-2))._buf 0
      = GT.GT_HEX.toNat ∧
    obuf_node.gt (Ostream.shl_GF ⟨32, 0, 1, 4, 4⟩
      ((Ostream.new (List.replicate 32 0)).clear.shl_setbase 16) 0x41100000)._buf 0
      = GT.GT_FLOAT.toNat :=
  have h := shl_number_kind ⟨32, 0, 1, 4, 4⟩
    ((Ostream.new (List.replicate 32 0)).clear.shl_setbase 16) (-2) 0x41100000
    rfl (by decide) (by decide) (by decide) (by decide) (by decide) (by decide)
  ⟨h.2.1 (by decide), h.2.2.2.2.1⟩

theorem shl_str_eq (E : Env) (o : Ostream) (str rest : List Nat)
    (hstr : ∀ c ∈ str, c ≠ 0) :
    Ostream.shl_str E o (str ++ 0 :: rest)
      = Ostream._write E.CUEF_OBUF_SIZE E.threadIdx_x E.blockIdx_x o .GT_STR
          (str ++ 0 :: rest) (str.length + 1) := by
  simp only [Ostream.shl_str, STRLENB_append str rest hstr]

theorem take_str_zero (str rest : List Nat) :
    (str ++ 0 :: rest).take (str.length + 1) = str ++ [0] := by
  have h1 : str ++ 0 :: rest = (str ++ [0]) ++ rest := by simp
  rw [h1, List.take_left' (by simp)]

/-- C14: for the leader thread and records that lie inside the buffer,
`operator<<(const char*)` on the string `str` stores one record of kind
`GT_STR` whose size field is `ALIGN4 (len + 1)` and whose payload begins with
the bytes of `str` and the terminator; `operator<<(U8 c)` stores one record of
kind `GT_STR` and size 4 whose payload begins with `c` and the terminator.
Reading the payload up to the first NUL gives `str`, respectively the
one-character string `c` (the empty string when `c` is NUL itself). -/
theorem shl_string_record (E : Env) (o : Ostream) (str rest : List Nat) (c : Nat)
    (hlead : E.threadIdx_x = 0)
    (hstr : ∀ x ∈ str, x ≠ 0)
    (hacc : sizeof_obuf_node + ALIGN4 (str.length + 1) ≤ E.CUEF_OBUF_SIZE)
    (hfit : o._idx + sizeof_obuf_node + ALIGN4 (str.length + 1) < o._buf.length)
    (h16 : ALIGN4 (str.length + 1) < 2 ^ 16)
    (hacc2 : sizeof_obuf_node + ALIGN4 2 ≤ E.CUEF_OBUF_SIZE)
    (hfit2 : o._idx + sizeof_obuf_node + ALIGN4 2 < o._buf.length) :
    obuf_node.gt (Ostream.shl_str E o (str ++ 0 :: rest))._buf o._idx = GT.GT_STR.toNat ∧
    obuf_node.size (Ostream.shl_str E o (str ++ 0 :: rest))._buf o._idx
      = ALIGN4 (str.length + 1) ∧
    obuf_node.data (Ostream.shl_str E o (str ++ 0 :: rest))._buf o._idx (str.length + 1)
      = str ++ [0] ∧
    (obuf_node.data (Ostream.shl_str E o (str ++ 0 :: rest))._buf o._idx
      (ALIGN4 (str.length + 1))).takeWhile (fun x => x != 0) = str ∧
    (Ostream.shl_str E o (str ++ 0 :: rest))._idx
      = o._idx + (sizeof_obuf_node + ALIGN4 (str.length + 1)) ∧
    obuf_node.gt (Ostream.shl_U8 E o c)._buf o._idx = GT.GT_STR.toNat ∧
    obuf_node.size (Ostream.shl_U8 E o c)._buf o._idx = 4 ∧
    obuf_node.data (Ostream.shl_U8 E o c)._buf o._idx 2 = [c, 0] ∧
    (obuf_node.data (Ostream.shl_U8 E o c)._buf o._idx 4).takeWhile
      (fun x => x != 0) = (if c = 0 then [] else [c]) ∧
    (Ostream.shl_U8 E o c)._idx = o._idx + (sizeof_obuf_node + 4) := by
  have hs := write_accepted_record E.CUEF_OBUF_SIZE E.blockIdx_x o GT.GT_STR
    (str ++ 0 :: rest) (str.length + 1) hacc hfit h16 (by simp)
  have hc := write_accepted_record E.CUEF_OBUF_SIZE E.blockIdx_x o GT.GT_STR
    [c, 0] 2 hacc2 hfit2 (by decide) (le_refl 2)
  have hA2 : ALIGN4 2 = 4 := by decide
  rw [shl_str_eq E o str rest hstr]
  simp only [Ostream.shl_U8, hlead]
  rw [take_str_zero] at hs
  rw [hA2] at hc
  refine ⟨hs.2.2.1, hs.2.2.2.1, hs.2.2.2.2.2.1, ?_, hs.2.2.2.2.2.2.1,
    hc.2.2.1, hc.2.2.2.1, hc.2.2.2.2.2.1, ?_, hc.2.2.2.2.2.2.1⟩
  · apply takeWhile_of_take _ _ hstr
    rw [data_take _ _ _ _ hs.2.2.2.2.1.1]
    exact hs.2.2.2.2.2.1
  · by_cases hc0 : c = 0
    · rw [if_pos hc0]
      apply takeWhile_of_take _ [] (by simp)
      rw [data_take _ _ _ _ (by simp), ← data_take _ _ 2 _ (by simp), hc.2.2.2.2.2.1, hc0]
      rfl
    · rw [if_neg hc0]
      have h1 : ∀ x ∈ [c], x ≠ 0 := by
        intro x hx
        rw [List.mem_singleton] at hx
        rw [hx]
        exact hc0
      apply takeWhile_of_take _ [c] h1
      rw [data_take _ _ _ _ (by simp)]
      exact hc.2.2.2.2.2.1

/-- Witness of C14: thread 0 of block 1 writes the string "abcd" and the
character 'A' into a cleared buffer of 32 bytes. -/
theorem shl_string_record_witness :
    obuf_node.size (Ostream.shl_str ⟨32, 0, 1, 4, 4⟩ (Ostream.new (List.replicate 32 0)).clear
      ([97, 98, 99, 100] ++ 0 :: [7, 7]))._buf 0 = 8 ∧
    obuf_node.data (Ostream.shl_U8 ⟨32, 0, 1, 4, 4⟩ (Ostream.new (List.replicate 32 0)).clear
      65)._buf 0 2 = [65, 0] :=
  have h := shl_string_record ⟨32, 0, 1, 4, 4⟩ (Ostream.new (List.replicate 32 0)).clear
    [97, 98, 99, 100] [7, 7] 65 rfl (by decide) (by decide) (by decide) (by decide)
    (by decide) (by decide)
  ⟨h.2.1, h.2.2.2.2.2.2.2.1⟩

/-! ## `System::dot` -/

theorem shl_str_two (E : Env) (o : Ostream) (c : Nat) (hc : c ≠ 0) :
    Ostream.shl_str E o [c, 0]
      = Ostream._write E.CUEF_OBUF_SIZE E.threadIdx_x E.blockIdx_x o .GT_STR [c, 0] 2 := by
  have h := shl_str_eq E o [c] [] (by
    intro x hx
    rw [List.mem_singleton] at hx
    rw [hx]
    exact hc)
  exact h

/-- C15: for the leader thread and records that lie inside the buffer,
`dot(DOT, v)` stores at the old cursor a record of kind `GT_FLOAT` carrying the
raw bytes of `v`, right after it a record of kind `GT_STR` holding a single
space, and leaves the cursor behind the second record with the end marker
there; `dot(CR)` stores one record of kind `GT_STR` holding the newline;
`dot(RDX, v)` leaves buffer and cursor as they are and sets the base to
`INT(v)`. Width, fill and precision are never changed, and `DOT` and `CR`
keep the base. -/
theorem dot_records (E : Env) (INT : DU → Int) (shl_U32 : Ostream → DU → Ostream)
    (o : Ostream) (v : DU)
    (hlead : E.threadIdx_x = 0)
    (haccf : sizeof_obuf_node + ALIGN4 E.sizeof_GF ≤ E.CUEF_OBUF_SIZE)
    (h16f : ALIGN4 E.sizeof_GF < 2 ^ 16)
    (hacc2 : sizeof_obuf_node + ALIGN4 2 ≤ E.CUEF_OBUF_SIZE)
    (hfit : o._idx + (sizeof_obuf_node + ALIGN4 E.sizeof_GF) + (sizeof_obuf_node + ALIGN4 2)
      < o._buf.length) :
    (obuf_node.gt (System.dot E INT shl_U32 o .DOT v)._buf o._idx = GT.GT_FLOAT.toNat ∧
      obuf_node.size (System.dot E INT shl_U32 o .DOT v)._buf o._idx = ALIGN4 E.sizeof_GF ∧
      obuf_node.data (System.dot E INT shl_U32 o .DOT v)._buf o._idx E.sizeof_GF
        = leBytes E.sizeof_GF v ∧
      obuf_node.gt (System.dot E INT shl_U32 o .DOT v)._buf
        (o._idx + (sizeof_obuf_node + ALIGN4 E.sizeof_GF)) = GT.GT_STR.toNat ∧
      obuf_node.size (System.dot E INT shl_U32 o .DOT v)._buf
        (o._idx + (sizeof_obuf_node + ALIGN4 E.sizeof_GF)) = 4 ∧
      obuf_node.data (System.dot E INT shl_U32 o .DOT v)._buf
        (o._idx + (sizeof_obuf_node + ALIGN4 E.sizeof_GF)) 2 = [32, 0] ∧
      (System.dot E INT shl_U32 o .DOT v)._idx
        = o._idx + (sizeof_obuf_node + ALIGN4 E.sizeof_GF) + (sizeof_obuf_node + 4) ∧
      (System.dot E INT shl_U32 o .DOT v)._buf[(System.dot E INT shl_U32 o .DOT v)._idx]?
        = some GT.GT_EMPTY.toNat ∧
      (System.dot E INT shl_U32 o .DOT v)._base = o._base ∧
      (System.dot E INT shl_U32 o .DOT v)._width = o._width ∧
      (System.dot E INT shl_U32 o .DOT v)._fill = o._fill ∧
      (System.dot E INT shl_U32 o .DOT v)._prec = o._prec) ∧
    (obuf_node.gt (System.dot E INT shl_U32 o .CR v)._buf o._idx = GT.GT_STR.toNat ∧
      obuf_node.size (System.dot E INT shl_U32 o .CR v)._buf o._idx = 4 ∧
      obuf_node.data (System.dot E INT shl_U32 o .CR v)._buf o._idx 2 = [10, 0] ∧
      (System.dot E INT shl_U32 o .CR v)._idx = o._idx + (sizeof_obuf_node + 4) ∧
      (System.dot E INT shl_U32 o .CR v)._buf[(System.dot E INT shl_U32 o .CR v)._idx]?
        = some GT.GT_EMPTY.toNat ∧
      (System.dot E INT shl_U32 o .CR v)._base = o._base ∧
      (System.dot E INT shl_U32 o .CR v)._width = o._width ∧
      (System.dot E INT shl_U32 o .CR v)._fill = o._fill ∧
      (System.dot E INT shl_U32 o .CR v)._prec = o._prec) ∧
    (System.dot E INT shl_U32 o .RDX v)._buf = o._buf ∧
    (System.dot E INT shl_U32 o .RDX v)._idx = o._idx ∧
    (System.dot E INT shl_U32 o .RDX v)._base = INT v ∧
    (System.dot E INT shl_U32 o .RDX v)._width = o._width ∧
    (System.dot E INT shl_U32 o .RDX v)._fill = o._fill ∧
    (System.dot E INT shl_U32 o .RDX v)._prec = o._prec := by
  have hA2 : ALIGN4 2 = 4 := by decide
  have hA := ALIGN4_spec E.sizeof_GF
  simp only [sizeof_obuf_node] at haccf hacc2 hfit
  rw [hA2] at hacc2 hfit
  refine ⟨?_, ?_, rfl, rfl, rfl, rfl, rfl, rfl⟩
  · -- DOT
    have e : System.dot E INT shl_U32 o .DOT v
        = Ostream._write E.CUEF_OBUF_SIZE 0 E.blockIdx_x
            (Ostream._write E.CUEF_OBUF_SIZE 0 E.blockIdx_x o .GT_FLOAT
              (leBytes E.sizeof_GF v) E.sizeof_GF) .GT_STR [32, 0] 2 := by
      simp only [System.dot, SPACE, shl_str_two E _ 32 (by decide), Ostream.shl_GF, hlead]
    rw [e]
    have h1 := write_accepted_record E.CUEF_OBUF_SIZE E.blockIdx_x o GT.GT_FLOAT
      (leBytes E.sizeof_GF v) E.sizeof_GF (by simp only [sizeof_obuf_node]; omega)
      (by simp only [sizeof_obuf_node]; omega) h16f (by rw [length_leBytes])
    have hl1 := length_write E.CUEF_OBUF_SIZE 0 E.blockIdx_x o GT.GT_FLOAT
      (leBytes E.sizeof_GF v) E.sizeof_GF
    have hf1 := write_fmt E.CUEF_OBUF_SIZE 0 E.blockIdx_x o GT.GT_FLOAT
      (leBytes E.sizeof_GF v) E.sizeof_GF
    generalize Ostream._write E.CUEF_OBUF_SIZE 0 E.blockIdx_x o GT.GT_FLOAT
      (leBytes E.sizeof_GF v) E.sizeof_GF = o1 at h1 hl1 hf1 ⊢
    obtain ⟨-, -, hgt1, hsz1, -, hdat1, hidx1, -⟩ := h1
    simp only [sizeof_obuf_node] at hidx1 ⊢
    rw [take_leBytes] at hdat1
    have hacc' : sizeof_obuf_node + ALIGN4 2 ≤ E.CUEF_OBUF_SIZE := by
      simp only [sizeof_obuf_node, hA2]; omega
    have hfit' : o1._idx + sizeof_obuf_node + ALIGN4 2 < o1._buf.length := by
      simp only [sizeof_obuf_node, hA2]; omega
    have h2 := write_accepted_record E.CUEF_OBUF_SIZE E.blockIdx_x o1 GT.GT_STR
      [32, 0] 2 hacc' hfit' (by decide) (by decide)
    have hm2 := write_marker_at_cursor E.CUEF_OBUF_SIZE E.blockIdx_x o1 GT.GT_STR
      [32, 0] 2 hacc' hfit' (by decide)
    have hf2 := write_fmt E.CUEF_OBUF_SIZE 0 E.blockIdx_x o1 GT.GT_STR [32, 0] 2
    have hkeep : ∀ i, i < o1._idx →
        (Ostream._write E.CUEF_OBUF_SIZE 0 E.blockIdx_x o1 GT.GT_STR [32, 0] 2)._buf[i]?
          = o1._buf[i]? :=
      fun i hi => write_keeps_earlier_bytes E.CUEF_OBUF_SIZE 0 E.blockIdx_x o1 GT.GT_STR
        [32, 0] 2 i hi
    generalize Ostream._write E.CUEF_OBUF_SIZE 0 E.blockIdx_x o1 GT.GT_STR [32, 0] 2 = o2
      at h2 hm2 hf2 hkeep ⊢
    obtain ⟨-, -, hgt2, hsz2, -, hdat2, hidx2, -⟩ := h2
    simp only [sizeof_obuf_node, hA2] at hidx2 hsz2
    have hrd : rd32 o2._buf o._idx = rd32 o1._buf o._idx :=
      rd32_congr _ _ _ _ hkeep (by omega)
    have hdat : obuf_node.data o2._buf o._idx E.sizeof_GF
        = obuf_node.data o1._buf o._idx E.sizeof_GF :=
      data_congr _ _ _ _ _ hkeep (by simp only [sizeof_obuf_node]; omega)
    rw [← hidx1]
    refine ⟨?_, ?_, ?_, hgt2, hsz2, hdat2, hidx2, hm2, ?_, ?_, ?_, ?_⟩
    · simp only [obuf_node.gt, hrd] at hgt1 ⊢
      exact hgt1
    · simp only [obuf_node.size, hrd] at hsz1 ⊢
      exact hsz1
    · rw [hdat, hdat1]
    · rw [hf2.1, hf1.1]
    · rw [hf2.2.1, hf1.2.1]
    · rw [hf2.2.2.1, hf1.2.2.1]
    · rw [hf2.2.2.2, hf1.2.2.2]
  · -- CR
    have e : System.dot E INT shl_U32 o .CR v
        = Ostream._write E.CUEF_OBUF_SIZE 0 E.blockIdx_x o .GT_STR [10, 0] 2 := by
      simp only [System.dot, ENDL, shl_str_two E _ 10 (by decide), hlead]
    rw [e]
    have hacc' : sizeof_obuf_node + ALIGN4 2 ≤ E.CUEF_OBUF_SIZE := by
      simp only [sizeof_obuf_node, hA2]; omega
    have hfit' : o._idx + sizeof_obuf_node + ALIGN4 2 < o._buf.length := by
      simp only [sizeof_obuf_node, hA2]; omega
    have h2 := write_accepted_record E.CUEF_OBUF_SIZE E.blockIdx_x o GT.GT_STR
      [10, 0] 2 hacc' hfit' (by decide) (by decide)
    have hm2 := write_marker_at_cursor E.CUEF_OBUF_SIZE E.blockIdx_x o GT.GT_STR
      [10, 0] 2 hacc' hfit' (by decide)
    have hf2 := write_fmt E.CUEF_OBUF_SIZE 0 E.blockIdx_x o GT.GT_STR [10, 0] 2
    obtain ⟨-, -, hgt2, hsz2, -, hdat2, hidx2, -⟩ := h2
    simp only [hA2] at hidx2 hsz2
    exact ⟨hgt2, hsz2, hdat2, hidx2, hm2, hf2.1, hf2.2.1, hf2.2.2.1, hf2.2.2.2⟩

/-- Witness of C15: thread 0 of block 1 prints the cell `0x41100000` (9.0) into
a cleared buffer of 32 bytes: a float record at offset 0, a string record with
a space at offset 8, cursor 16. -/
theorem dot_records_witness :
    (System.dot ⟨32, 0, 1, 4, 4⟩ (fun _ => 16) (fun s _ => s)
      (Ostream.new (List.replicate 32 0)).clear .DOT 0x41100000)._idx = 16 ∧
    (System.dot ⟨32, 0, 1, 4, 4⟩ (fun _ => 16) (fun s _ => s)
      (Ostream.new (List.replicate 32 0)).clear .RDX 0x41100000)._base = 16 :=
  have h := dot_records ⟨32, 0, 1, 4, 4⟩ (fun _ => 16) (fun s _ => s)
    (Ostream.new (List.replicate 32 0)).clear 0x41100000
    rfl (by decide) (by decide) (by decide) (by decide)
  ⟨h.1.2.2.2.2.2.2.1, h.2.2.2.2.1⟩

/-! ## The end marker and the bounds of the buffer -/

/-- C16, as the code behaves. The byte at the cursor is the end marker, but a
consumer does not stop at the cursor.
(1) Thread 0 of block 0 writes the character 'A' into a cleared channel: the
cursor is 8 and the byte there is `GT_EMPTY`, yet the walk that stops at the
byte `GT_EMPTY` stops at offset 0, on the first byte of the record.
(2) A channel that held an 8-byte string of block 1 is cleared and block 1
writes a one-character string: the cursor is 8, yet the walk that stops at a
header of kind `GT_EMPTY` runs on to offset 115, outside the buffer.
(3) With `CUEF_OBUF_SIZE = 16`, after records of 8 and of 1 payload bytes the
cursor is 20 and there is no buffer byte at the cursor. -/
theorem walk_does_not_stop_at_cursor :
    ((Ostream.shl_U8 ⟨32, 0, 0, 4, 4⟩ (Ostream.new (List.replicate 32 0)).clear 65)._idx = 8 ∧
      (Ostream.shl_U8 ⟨32, 0, 0, 4, 4⟩ (Ostream.new (List.replicate 32 0)).clear 65)._buf[8]?
        = some GT.GT_EMPTY.toNat ∧
      walkStop (Ostream.shl_U8 ⟨32, 0, 0, 4, 4⟩
        (Ostream.new (List.replicate 32 0)).clear 65).rdbuf 32 0 = 0) ∧
    ((Ostream.shl_str ⟨32, 0, 1, 4, 4⟩
        (Ostream.shl_str ⟨32, 0, 1, 4, 4⟩ (Ostream.new (List.replicate 32 0)).clear
          [97, 98, 99, 100, 101, 102, 103, 0]).clear [120, 0])._idx = 8 ∧
      walkKindStop (Ostream.shl_str ⟨32, 0, 1, 4, 4⟩
        (Ostream.shl_str ⟨32, 0, 1, 4, 4⟩ (Ostream.new (List.replicate 32 0)).clear
          [97, 98, 99, 100, 101, 102, 103, 0]).clear [120, 0]).rdbuf 32 0 = 115) ∧
    ((Ostream.shl_U8 ⟨16, 0, 1, 4, 4⟩
        (Ostream.shl_str ⟨16, 0, 1, 4, 4⟩ (Ostream.new (List.replicate 16 0)).clear
          [97, 98, 99, 100, 101, 102, 103, 0]) 65)._idx = 20 ∧
      (Ostream.shl_U8 ⟨16, 0, 1, 4, 4⟩
        (Ostream.shl_str ⟨16, 0, 1, 4, 4⟩ (Ostream.new (List.replicate 16 0)).clear
          [97, 98, 99, 100, 101, 102, 103, 0]) 65)._buf[20]? = none) := by
  decide

theorem writes_cons (cap : Nat) (o : Ostream) (w : WriteReq) (ws : List WriteReq) :
    Ostream.writes cap o (w :: ws)
      = Ostream.writes cap (Ostream._write cap w.threadIdx_x w.blockIdx_x o w.gt w.v w.sz) ws :=
  rfl

/-- Each one-byte record of the leader thread moves the cursor by 8, whatever
the cursor is. -/
theorem writes_one_byte_idx (cap b c : Nat) (h : 8 ≤ cap) (k : Nat) :
    ∀ o : Ostream,
      (Ostream.writes cap o (List.replicate k ⟨0, b, .GT_STR, [c], 1⟩))._idx = o._idx + 8 * k := by
  induction k with
  | zero => intro o; rfl
  | succ k ih =>
    intro o
    have hA : ALIGN4 1 = 4 := by decide
    rw [List.replicate_succ, writes_cons, ih,
      write_leader_eq cap b o .GT_STR [c] 1 (by rw [hA]; exact h)]
    simp only [hA]
    omega

/-- C17, as the code behaves: for every capacity of at least 8 bytes, `k`
one-byte records written by the leader thread into a cleared channel are all
accepted and leave the cursor at `8 * k`; so the cursor is not below
`CUEF_OBUF_SIZE` as soon as `8 * k` reaches it. -/
theorem cursor_reaches_capacity (cap b c k : Nat) (mem : List Nat) (h : 8 ≤ cap) :
    (Ostream.writes cap (Ostream.new mem).clear
      (List.replicate k ⟨0, b, .GT_STR, [c], 1⟩))._idx = 8 * k ∧
    (cap ≤ 8 * k →
      ¬ (Ostream.writes cap (Ostream.new mem).clear
        (List.replicate k ⟨0, b, .GT_STR, [c], 1⟩))._idx < cap) := by
  have h1 := writes_one_byte_idx cap b c h k (Ostream.new mem).clear
  have h0 : (Ostream.new mem).clear._idx = 0 := rfl
  rw [h0, Nat.zero_add] at h1
  refine ⟨h1, ?_⟩
  intro hk
  rw [h1]
  omega

/-- Witness of C17: `CUEF_OBUF_SIZE = 16`: two one-character records leave the
cursor at 16, so the end marker is stored at `_buf[16]`. -/
theorem cursor_reaches_capacity_witness :
    ¬ (Ostream.writes 16 (Ostream.new (List.replicate 16 0)).clear
      (List.replicate 2 ⟨0, 1, .GT_STR, [65], 1⟩))._idx < 16 :=
  (cursor_reaches_capacity 16 1 65 2 (List.replicate 16 0) (by decide)).2 (by decide)

end CueForth
